import Mathlib

/-!
# ETW2CTF: schema dictionary, packet encoder, dissector chain, stream writer

A shallow embedding of `src/converter/metadata.h`,
`src/dissector/dissectors.cc`, `src/converter/ctf_producer.cpp` and
`src/main.cpp`.  Machine integers (`size_t`, `uint8_t`, ...)
are natural numbers; bytes are natural numbers below 256.  A C++ object that
is mutated through a pointer becomes a value that is passed in and returned.
-/

namespace converter

/-- Windows `GUID` (declared by `initguid.h`): 16 bytes split in four members. -/
structure GUID where
  Data1 : Nat
  Data2 : Nat
  Data3 : Nat
  Data4 : List Nat
deriving DecidableEq, Repr

/-- The enumeration `Metadata::Field::FieldType` of `metadata.h`. -/
inductive FieldType where
  | INVALID
  | ARRAY_FIXED
  | ARRAY_VAR
  | STRUCT_BEGIN
  | STRUCT_END
  | BINARY_FIXED
  | BINARY_VAR
  | INT8
  | INT16
  | INT32
  | INT64
  | UINT8
  | UINT16
  | UINT32
  | UINT64
  | XINT8
  | XINT16
  | XINT32
  | XINT64
  | STRING
  | GUID
deriving DecidableEq, Repr

/-- Modelled from the spec: the value of `Metadata::kRootScope`, which
`metadata.h` only declares; the spec reserves the maximal `size_t`. -/
def kRootScope : Nat := 2 ^ 64 - 1

/-- The class `Metadata::Field`: the five private members. -/
structure Field where
  type : FieldType
  name : String
  size : Nat
  field_size : String
  parent : Nat
deriving DecidableEq, Repr

/-- The constructor `Field()`. -/
def Field.default : Field :=
  { type := FieldType.INVALID, name := "", size := 0, field_size := "", parent := 0 }

/-- The constructor `Field(type, name)`. -/
def Field.mk2 (type : FieldType) (name : String) : Field :=
  { type := type, name := name, size := 0, field_size := "", parent := kRootScope }

/-- Modelled from the spec: `Field::operator==`, declared in `metadata.h` and
defined outside the sources at hand; "structural over all five members". -/
def Field.operatorEq (a b : Field) : Bool :=
  decide (a.type = b.type) && decide (a.name = b.name) && decide (a.size = b.size)
    && decide (a.field_size = b.field_size) && decide (a.parent = b.parent)

/-- The class `Metadata::Event`: name, descriptor and ordered fields. -/
structure Event where
  name : String
  guid : GUID
  opcode : Nat
  version : Nat
  event_id : Nat
  fields : List Field
deriving DecidableEq, Repr

/-- The constructor `Event()`: zeroed descriptor, no field. -/
def Event.new : Event :=
  { name := "", guid := { Data1 := 0, Data2 := 0, Data3 := 0, Data4 := List.replicate 8 0 },
    opcode := 0, version := 0, event_id := 0, fields := [] }

/-- The accessor `Event::size()`. -/
def Event.size (e : Event) : Nat := e.fields.length

/-- The method `Event::Reset()`: `fields_.clear()`. -/
def Event.Reset (e : Event) : Event := { e with fields := [] }

/-- The method `Event::Reset(offset)`: `fields_.resize(offset)`, which cuts the
vector down to `offset` elements or fills it up with `Field()`. -/
def Event.ResetTo (e : Event) (offset : Nat) : Event :=
  { e with fields := e.fields.take offset
                      ++ List.replicate (offset - e.fields.length) Field.default }

/-- Modelled from the spec: `Event::AddField`, declared in `metadata.h` and
defined outside the sources at hand; it appends the field. -/
def Event.AddField (e : Event) (field : Field) : Event :=
  { e with fields := e.fields ++ [field] }

/-- Ordered comparison of two field sequences with `Field::operator==`. -/
def fieldsEq : List Field → List Field → Bool
  | [], [] => true
  | a :: as, b :: bs => a.operatorEq b && fieldsEq as bs
  | _, _ => false

/-- Modelled from the spec: `Event::operator==`, declared in `metadata.h` and
defined outside the sources at hand; "all descriptor members AND ordered
field sequence equal".  The name is not a descriptor member. -/
def Event.operatorEq (a b : Event) : Bool :=
  decide (a.guid = b.guid) && decide (a.opcode = b.opcode)
    && decide (a.version = b.version) && decide (a.event_id = b.event_id)
    && fieldsEq a.fields b.fields

/-- The class `Metadata`: the vector `events_`; the id is the offset. -/
structure Metadata where
  events_ : List Event
deriving DecidableEq, Repr

/-- The constructor `Metadata()`. -/
def Metadata.new : Metadata := { events_ := [] }

/-- The accessor `Metadata::size()`. -/
def Metadata.size (m : Metadata) : Nat := m.events_.length

/-- The accessor `Metadata::GetEventWithId`: `events_.at(event_id)`, which
throws out of range (`none`). -/
def Metadata.GetEventWithId (m : Metadata) (event_id : Nat) : Option Event :=
  if event_id < m.events_.length then m.events_.get? event_id else none

/-- Linear search of the dictionary for an entry that compares equal to
`event`; the offset of the first one. -/
def searchEvent (event : Event) : List Event → Option Nat
  | [] => none
  | it :: rest =>
    if it.operatorEq event then some 0
    else (searchEvent event rest).map (fun id => id + 1)

/-- Modelled from the spec: `Metadata::GetIdForEvent`, declared in
`metadata.h` and defined outside the sources at hand; "linear search `events`
for structural equality with `e`; if found, return its index.  Otherwise
append a clone of `e` and return the new index." -/
def Metadata.GetIdForEvent (m : Metadata) (event : Event) : Nat × Metadata :=
  match searchEvent event m.events_ with
  | some id => (id, m)
  | none => (m.events_.length, { events_ := m.events_ ++ [event] })

/-- Successive calls `GetIdForEvent(e1)`, ..., `GetIdForEvent(eN)`: the ids
returned, in call order, and the final dictionary. -/
def Metadata.GetIdForEvents (m : Metadata) : List Event → List Nat × Metadata
  | [] => ([], m)
  | e :: es =>
    let r := m.GetIdForEvent e
    let rs := Metadata.GetIdForEvents r.2 es
    (r.1 :: rs.1, rs.2)

/-- The call `GetIdForEvent(e)` repeated `k` times in a row. -/
def Metadata.GetIdForEventTimes (m : Metadata) (e : Event) (k : Nat) : List Nat × Metadata :=
  m.GetIdForEvents (List.replicate k e)

/-- The dictionary never holds two entries that compare equal. -/
def Metadata.Unique (m : Metadata) : Prop :=
  m.events_.Pairwise (fun a b => a.operatorEq b = false)

/-- The event of the spec's scenario 3: fields `[UINT32 "a", STRING "b"]`. -/
def scenarioE : Event :=
  (Event.new.AddField (Field.mk2 FieldType.UINT32 "a")).AddField (Field.mk2 FieldType.STRING "b")

/-- The event `E1` of the spec's scenario 4: one field. -/
def scenarioE1 : Event :=
  Event.new.AddField (Field.mk2 FieldType.UINT32 "a")

/-- The event `E2` of the spec's scenario 4: the descriptor of `E1`, another
field list. -/
def scenarioE2 : Event :=
  Event.new.AddField (Field.mk2 FieldType.UINT64 "a")

/-- The class `Metadata::Packet`: the byte buffer and the three side members. -/
structure Packet where
  buffer_ : List Nat
  timestamp_ : Nat
  event_id_offset_ : Nat
  packet_context_offset_ : Nat
deriving DecidableEq, Repr

/-- Modelled from the spec: the constructor `Packet()`, declared in
`metadata.h` and defined outside the sources at hand; an empty buffer. -/
def Packet.new : Packet :=
  { buffer_ := [], timestamp_ := 0, event_id_offset_ := 0, packet_context_offset_ := 0 }

/-- Modelled from the spec: `Packet::raw_bytes()`, declared in `metadata.h`
and defined outside the sources at hand; the buffered bytes. -/
def Packet.raw_bytes (p : Packet) : List Nat := p.buffer_

/-- Modelled from the spec: `Packet::size()`, declared in `metadata.h` and
defined outside the sources at hand; "number of bytes currently buffered". -/
def Packet.size (p : Packet) : Nat := p.buffer_.length

/-- Modelled from the spec: `Packet::Reset(offset)`, declared in `metadata.h`
and defined outside the sources at hand; "truncate buffer to exactly `offset`
bytes; requires `offset ≤ size()`". -/
def Packet.Reset (p : Packet) (offset : Nat) : Packet :=
  { p with buffer_ := p.buffer_.take offset }

/-- Modelled from the spec: `Packet::EncodeUInt8`, declared in `metadata.h`
and defined outside the sources at hand; appends one byte.  The argument is
converted to `uint8_t`. -/
def Packet.EncodeUInt8 (p : Packet) (value : Nat) : Packet :=
  { p with buffer_ := p.buffer_ ++ [value % 2 ^ 8] }

/-- Modelled from the spec: `Packet::EncodeUInt16`, declared in `metadata.h`
and defined outside the sources at hand; "append the value in little-endian",
two bytes, low byte first.  The argument is converted to `uint16_t`. -/
def Packet.EncodeUInt16 (p : Packet) (value : Nat) : Packet :=
  let v := value % 2 ^ 16
  (p.EncodeUInt8 v).EncodeUInt8 (v / 2 ^ 8)

/-- Modelled from the spec: `Packet::EncodeUInt32`, declared in `metadata.h`
and defined outside the sources at hand; "append the value in little-endian",
four bytes, low byte first.  The argument is converted to `uint32_t`. -/
def Packet.EncodeUInt32 (p : Packet) (value : Nat) : Packet :=
  let v := value % 2 ^ 32
  (((p.EncodeUInt8 v).EncodeUInt8 (v / 2 ^ 8)).EncodeUInt8 (v / 2 ^ 16)).EncodeUInt8 (v / 2 ^ 24)

/-- Modelled from the spec: `Packet::EncodeUInt64`, declared in `metadata.h`
and defined outside the sources at hand; "append the value in little-endian",
eight bytes, low byte first.  The argument is converted to `uint64_t`. -/
def Packet.EncodeUInt64 (p : Packet) (value : Nat) : Packet :=
  let v := value % 2 ^ 64
  (((((((p.EncodeUInt8 v).EncodeUInt8 (v / 2 ^ 8)).EncodeUInt8 (v / 2 ^ 16)).EncodeUInt8
    (v / 2 ^ 24)).EncodeUInt8 (v / 2 ^ 32)).EncodeUInt8 (v / 2 ^ 40)).EncodeUInt8
    (v / 2 ^ 48)).EncodeUInt8 (v / 2 ^ 56)

/-- One call of a fixed-width encoder with its argument. -/
inductive EncodeCall where
  | UInt8 (value : Nat)
  | UInt16 (value : Nat)
  | UInt32 (value : Nat)
  | UInt64 (value : Nat)
deriving DecidableEq, Repr

/-- The number of bytes of the encoder's argument type. -/
def EncodeCall.width : EncodeCall → Nat
  | .UInt8 _ => 1
  | .UInt16 _ => 2
  | .UInt32 _ => 4
  | .UInt64 _ => 8

/-- The argument of the call. -/
def EncodeCall.value : EncodeCall → Nat
  | .UInt8 v => v
  | .UInt16 v => v
  | .UInt32 v => v
  | .UInt64 v => v

/-- Performs the call on a packet. -/
def EncodeCall.run (p : Packet) : EncodeCall → Packet
  | .UInt8 v => p.EncodeUInt8 v
  | .UInt16 v => p.EncodeUInt16 v
  | .UInt32 v => p.EncodeUInt32 v
  | .UInt64 v => p.EncodeUInt64 v

/-- Performs a sequence of encoder calls, first call first. -/
def Packet.EncodeAll (p : Packet) (calls : List EncodeCall) : Packet :=
  calls.foldl EncodeCall.run p

/-- The little-endian encoding of `v` on `width` bytes, as the spec words it:
byte `i` is digit `i` of `v` in base 256, least significant digit first. -/
def littleEndian (width v : Nat) : List Nat :=
  (List.range width).map (fun i => v / 256 ^ i % 256)

/-- The number a byte sequence stands for when read little-endian. -/
def littleEndianValue : List Nat → Nat
  | [] => 0
  | b :: bs => b + 256 * littleEndianValue bs

/-- Modelled from the spec: `Packet::UpdateUInt32`, declared in `metadata.h`
and defined outside the sources at hand; "overwrite 4 bytes starting at `pos`
with little-endian encoding of `v`.  Fails (assertion / error) if
`pos + N > size()`" (`none`).  The argument is converted to `uint32_t`. -/
def Packet.UpdateUInt32 (p : Packet) (position value : Nat) : Option Packet :=
  if position + 4 ≤ p.buffer_.length then
    let v := value % 2 ^ 32
    some { p with buffer_ :=
      (((p.buffer_.set position (v % 2 ^ 8)).set (position + 1) (v / 2 ^ 8 % 2 ^ 8)).set
        (position + 2) (v / 2 ^ 16 % 2 ^ 8)).set (position + 3) (v / 2 ^ 24 % 2 ^ 8) }
  else none

/-- Modelled from the spec: `Packet::EncodeBytes`, declared in `metadata.h`
and defined outside the sources at hand; "append `len` raw bytes verbatim".
The elements are read as `uint8_t`. -/
def Packet.EncodeBytes (p : Packet) (value : List Nat) (length : Nat) : Packet :=
  { p with buffer_ := p.buffer_ ++ (value.take length).map (fun b => b % 2 ^ 8) }

/-- Modelled from the spec: `Packet::EncodeString`, declared in `metadata.h`
and defined outside the sources at hand; "append the bytes of `s` followed by
a single zero byte".  A `std::string` is the list of its bytes. -/
def Packet.EncodeString (p : Packet) (str : List Nat) : Packet :=
  (p.EncodeBytes str str.length).EncodeUInt8 0

/-- One call the producer makes to the system, with the answer it got:
`CreateDirectory`, and the opening, writing and closing of a file by the
buffer of `stream_`. -/
inductive OsCall where
  | CreateDirectory (path : String) (ok : Bool)
  | OpenFile (path : String) (ok : Bool)
  | WriteFile (path : String) (bytes : List Nat) (ok : Bool)
  | CloseFile (path : String) (ok : Bool)
deriving DecidableEq, Repr

/-- What the producer reads of its `std::ofstream`: the file its buffer holds
open, if any, and whether `failbit` or `badbit` is set. -/
structure OfStream where
  file : Option String
  failed : Bool
deriving DecidableEq, Repr

/-- The library call `std::ofstream::is_open()`. -/
def OfStream.is_open (s : OfStream) : Bool := s.file.isSome

/-- The library call `std::ofstream::fail()`. -/
def OfStream.fail (s : OfStream) : Bool := s.failed

/-- The library call `std::ofstream::good()`. -/
def OfStream.good (s : OfStream) : Bool := !s.failed

/-- The library call `std::ofstream::open(path, mode)`, where `ok` is the
answer of the system: a buffer that holds a file open refuses and `failbit`
is set; otherwise the file is opened and the state cleared, or `failbit` is
set.  The second component lists the calls made to the system. -/
def OfStream.open (s : OfStream) (path : String) (ok : Bool) : OfStream × List OsCall :=
  match s.file with
  | some _ => ({ s with failed := true }, [])
  | none =>
    if ok then ({ file := some path, failed := false }, [OsCall.OpenFile path true])
    else ({ s with failed := true }, [OsCall.OpenFile path false])

/-- The library call `std::ofstream::close()`, where `ok` is the answer of
the system: the file is let go in any case, and `failbit` is set when the
close fails or no file was open; flags set earlier stay. -/
def OfStream.close (s : OfStream) (ok : Bool) : OfStream × List OsCall :=
  match s.file with
  | none => ({ s with failed := true }, [])
  | some path => ({ file := none, failed := s.failed || !ok }, [OsCall.CloseFile path ok])

/-- The library call `std::ofstream::write(raw, length)`, where `ok` is the
answer of the system: nothing is written through a stream that is not good or
has no file, and `badbit` is set when the write fails. -/
def OfStream.write (s : OfStream) (raw : List Nat) (length : Nat) (ok : Bool) :
    OfStream × List OsCall :=
  if s.failed then (s, [])
  else
    match s.file with
    | none => ({ s with failed := true }, [])
    | some path =>
      ({ s with failed := !ok }, [OsCall.WriteFile path (raw.take length) ok])

/-- The class `CTFProducer` of `ctf_producer.cpp` (and of the older
`CTFProducer.cpp`, which has the same four methods): the members `folder_`
and `stream_`, and the calls made to the system so far, oldest first. -/
structure CTFProducer where
  folder_ : String
  stream_ : OfStream
  os : List OsCall
deriving DecidableEq, Repr

/-- A freshly constructed producer: no folder, a closed stream. -/
def CTFProducer.new : CTFProducer :=
  { folder_ := "", stream_ := { file := none, failed := false }, os := [] }

/-- The method `CTFProducer::OpenFolder`; `createOk` is the answer of
`CreateDirectory`. -/
def CTFProducer.OpenFolder (this : CTFProducer) (folder : String) (createOk : Bool) :
    Bool × CTFProducer :=
  if this.folder_ ≠ "" ∨ folder = "" then (false, this)
  else
    let this1 := { this with
      folder_ := folder, os := this.os ++ [OsCall.CreateDirectory folder createOk] }
    if createOk = false then (false, this1)
    else (true, this1)

/-- The method `CTFProducer::OpenStream`; `openOk` is the answer of the
system to the opening of the file.  The `assert` is compiled out; what it
asserts is `OpenStreamAsserted`. -/
def CTFProducer.OpenStream (this : CTFProducer) (filename : String) (openOk : Bool) :
    Bool × CTFProducer :=
  let ss := this.folder_ ++ "\\" ++ filename
  let r := this.stream_.open ss openOk
  (r.1.good, { this with stream_ := r.1, os := this.os ++ r.2 })

/-- The condition `assert(!stream_.is_open())` of `OpenStream`. -/
def CTFProducer.OpenStreamAsserted (this : CTFProducer) : Prop :=
  this.stream_.is_open = false

/-- The method `CTFProducer::CloseStream`; `closeOk` is the answer of the
system to the closing of the file. -/
def CTFProducer.CloseStream (this : CTFProducer) (closeOk : Bool) : Bool × CTFProducer :=
  if this.stream_.is_open = false then (false, this)
  else
    let r := this.stream_.close closeOk
    let this1 := { this with stream_ := r.1, os := this.os ++ r.2 }
    if r.1.fail then (false, this1)
    else (true, this1)

/-- The method `CTFProducer::Write`; `writeOk` is the answer of the system to
the write.  The `assert`s are compiled out. -/
def CTFProducer.Write (this : CTFProducer) (raw : List Nat) (length : Nat) (writeOk : Bool) :
    Bool × CTFProducer :=
  if this.stream_.is_open = false then (false, this)
  else
    let r := this.stream_.write raw length writeOk
    (true, { this with stream_ := r.1, os := this.os ++ r.2 })

/-- One call of a method of the producer, with the answer the system will
give to it. -/
inductive ProducerCall where
  | OpenFolder (folder : String) (createOk : Bool)
  | OpenStream (filename : String) (openOk : Bool)
  | Write (raw : List Nat) (length : Nat) (writeOk : Bool)
  | CloseStream (closeOk : Bool)
deriving DecidableEq, Repr

/-- Performs one call on the producer. -/
def ProducerCall.run (this : CTFProducer) : ProducerCall → CTFProducer
  | .OpenFolder folder createOk => (this.OpenFolder folder createOk).2
  | .OpenStream filename openOk => (this.OpenStream filename openOk).2
  | .Write raw length writeOk => (this.Write raw length writeOk).2
  | .CloseStream closeOk => (this.CloseStream closeOk).2

/-- Performs a sequence of calls on the producer, first call first. -/
def CTFProducer.runCalls (this : CTFProducer) (calls : List ProducerCall) : CTFProducer :=
  calls.foldl ProducerCall.run this

/-- The files held open after one more call to the system: a successful
opening adds its file, a closing removes its file. -/
def openFilesStep (files : List String) : OsCall → List String
  | OsCall.OpenFile path true => files ++ [path]
  | OsCall.CloseFile path _ => files.erase path
  | _ => files

/-- The files held open after the calls of a log, oldest call first. -/
def openFiles (log : List OsCall) : List String :=
  log.foldl openFilesStep []

end converter

namespace dissector

open converter

/-- The class `Dissector`: name, description and the virtual method
`DecodeEvent(guid, opcode, payload, payload_length, packet, descr)`.  The
packet and the event description it writes through its pointers are returned
next to its boolean; the payload is only read, and the answer depends on the
arguments alone.  The member `next_` is the tail of the list the dissector
heads. -/
structure Dissector where
  name_ : String
  descr_ : String
  DecodeEvent : GUID → Nat → List Nat → Nat → Packet → Event → Bool × Packet × Event

/-- The constructor `Dissector::Dissector`, on the global `dissectors` (the
list from its head): `this->next_ = dissectors; dissectors = this`. -/
def Dissector.register (this : Dissector) (dissectors : List Dissector) : List Dissector :=
  this :: dissectors

/-- The global list after the dissectors of `ds` are constructed in the order
of `ds`, starting from the list `dissectors`. -/
def registerAll (ds : List Dissector) (dissectors : List Dissector) : List Dissector :=
  ds.foldl (fun reg d => d.register reg) dissectors

/-- What a run of `DecodeEventWithDissectors` leaves: the boolean returned,
the packet and the event description behind the two pointers, and the
dissectors whose `DecodeEvent` was called, in call order. -/
structure DecodeResult where
  claimed : Bool
  packet : Packet
  descr : Event
  calls : List Dissector

/-- The `while (it != NULL)` loop of `DecodeEventWithDissectors`. -/
def decodeLoop (guid : GUID) (opcode : Nat) (payload : List Nat) (payload_length : Nat)
    (payload_position : Nat) : List Dissector → Packet → Event → DecodeResult
  | [], packet, descr => { claimed := false, packet := packet, descr := descr, calls := [] }
  | it :: next, packet, descr =>
    match it.DecodeEvent guid opcode payload payload_length packet descr with
    | (true, packet1, descr1) =>
      { claimed := true, packet := packet1, descr := descr1, calls := [it] }
    | (false, packet1, descr1) =>
      let r := decodeLoop guid opcode payload payload_length payload_position next
        (packet1.Reset payload_position) descr1.Reset
      { r with calls := it :: r.calls }

/-- The function `DecodeEventWithDissectors` of `dissectors.cc`, on the global
list `dissectors`. -/
def DecodeEventWithDissectors (dissectors : List Dissector) (guid : GUID) (opcode : Nat)
    (payload : List Nat) (payload_length : Nat) (packet : Packet) (descr : Event) :
    DecodeResult :=
  decodeLoop guid opcode payload payload_length packet.size dissectors packet descr

/-- The decoder `D1` of the spec's scenario 5: never claims, and leaves a
byte and a field behind when it gives up. -/
def exampleD1 : Dissector :=
  { name_ := "D1", descr_ := "always false",
    DecodeEvent := fun _ _ _ _ packet descr =>
      (false, packet.EncodeUInt8 0xFF, descr.AddField (Field.mk2 FieldType.INT8 "junk")) }

/-- The decoder `D2` of the spec's scenario 5: always claims, emits the field
`UINT8 "x"` and the byte `0xAB`. -/
def exampleD2 : Dissector :=
  { name_ := "D2", descr_ := "always true",
    DecodeEvent := fun _ _ _ _ packet descr =>
      (true, packet.EncodeUInt8 0xAB, descr.AddField (Field.mk2 FieldType.UINT8 "x")) }

/-- A decoder that never claims and writes nothing. -/
def exampleD4 : Dissector :=
  { name_ := "D4", descr_ := "always false, no output",
    DecodeEvent := fun _ _ _ _ packet descr => (false, packet, descr) }

/-- A provider GUID for the examples. -/
def exampleGuid : GUID := { Data1 := 1, Data2 := 2, Data3 := 3, Data4 := List.replicate 8 4 }

/-- A packet that already holds an event header of two bytes. -/
def examplePacket : Packet := (Packet.new.EncodeUInt8 0x11).EncodeUInt8 0x22

/-- A dissector that only appends: whatever it returns, the packet it leaves
is the packet it got with bytes added at the end, and the event it leaves is
the event it got with fields added at the end. -/
def AppendOnly (d : Dissector) : Prop :=
  ∀ (guid : GUID) (opcode : Nat) (payload : List Nat) (payload_length : Nat)
    (packet : Packet) (descr : Event),
    (∃ bytes, (d.DecodeEvent guid opcode payload payload_length packet descr).2.1
        = { packet with buffer_ := packet.buffer_ ++ bytes }) ∧
    (∃ fields, (d.DecodeEvent guid opcode payload payload_length packet descr).2.2
        = { descr with fields := descr.fields ++ fields })

end dissector

namespace converter

/-- The accessor `Event::set_name`. -/
def Event.set_name (e : Event) (name : String) : Event := { e with name := name }

/-- The content of the file `path` after one more call to the system: a
successful opening truncates it (`std::ofstream::trunc`), a successful write
to it appends the bytes. -/
def streamContentStep (path : String) (content : List Nat) : OsCall → List Nat
  | OsCall.OpenFile opened true => if opened = path then [] else content
  | OsCall.WriteFile written bytes true => if written = path then content ++ bytes else content
  | _ => content

/-- The content of the file `path` after the calls of a log, oldest first. -/
def streamContent (path : String) (log : List OsCall) : List Nat :=
  log.foldl (streamContentStep path) []

end converter

namespace etw2ctf

open converter

/-- The global `producer` of `main.cpp`, with the calls of its methods made
so far, oldest first, each with the answer the system gave. -/
structure Driver where
  producer : CTFProducer
  calls : List ProducerCall
deriving DecidableEq, Repr

/-- The state at program start: a freshly constructed `producer`. -/
def Driver.start : Driver := { producer := CTFProducer.new, calls := [] }

/-- A call `producer.OpenFolder(folder)`. -/
def Driver.OpenFolder (d : Driver) (folder : String) (createOk : Bool) : Bool × Driver :=
  ((d.producer.OpenFolder folder createOk).1,
    { producer := (d.producer.OpenFolder folder createOk).2,
      calls := d.calls ++ [ProducerCall.OpenFolder folder createOk] })

/-- A call `producer.OpenStream(filename)`. -/
def Driver.OpenStream (d : Driver) (filename : String) (openOk : Bool) : Bool × Driver :=
  ((d.producer.OpenStream filename openOk).1,
    { producer := (d.producer.OpenStream filename openOk).2,
      calls := d.calls ++ [ProducerCall.OpenStream filename openOk] })

/-- A call `producer.Write(raw, length)`. -/
def Driver.Write (d : Driver) (raw : List Nat) (length : Nat) (writeOk : Bool) :
    Bool × Driver :=
  ((d.producer.Write raw length writeOk).1,
    { producer := (d.producer.Write raw length writeOk).2,
      calls := d.calls ++ [ProducerCall.Write raw length writeOk] })

/-- A call `producer.CloseStream()`. -/
def Driver.CloseStream (d : Driver) (closeOk : Bool) : Bool × Driver :=
  ((d.producer.CloseStream closeOk).1,
    { producer := (d.producer.CloseStream closeOk).2,
      calls := d.calls ++ [ProducerCall.CloseStream closeOk] })

/-- One event record delivered to the callback `ProcessEvent`: what
`consumer.ProcessEvent` returns, the packet it leaves, and the answer of the
system to the write, if one is made. -/
structure EventRecord where
  accepted : Bool
  packet : Packet
  writeOk : Bool
deriving DecidableEq, Repr

/-- One buffer delivered to the callback `ProcessBuffer`: the answers of the
system to the close, the opening and the write, what `GetBufferName` returns
and the name it gives, the packet `ProcessHeader` leaves, and what
`consumer.ProcessBuffer` returns. -/
structure BufferRecord where
  closeOk : Bool
  nameOk : Bool
  stream_name : String
  openOk : Bool
  header : Packet
  writeOk : Bool
  processOk : Bool
deriving DecidableEq, Repr

/-- The callback `ProcessEvent` of `main.cpp`. -/
def ProcessEvent (d : Driver) (pevent : EventRecord) : Driver :=
  if pevent.accepted = false then d
  else (d.Write pevent.packet.raw_bytes pevent.packet.size pevent.writeOk).2

/-- The callback `ProcessBuffer` of `main.cpp`, with the `ULONG` it returns
as a boolean. -/
def ProcessBuffer (d : Driver) (ptrace : BufferRecord) : Bool × Driver :=
  let d1 := (d.CloseStream ptrace.closeOk).2
  if ptrace.nameOk = false then (false, d1)
  else
    let d2 := (d1.OpenStream ptrace.stream_name ptrace.openOk).2
    let d3 := (d2.Write ptrace.header.raw_bytes ptrace.header.size ptrace.writeOk).2
    if ptrace.processOk = false then (false, d3)
    else (true, d3)

/-- One callback issued by the trace API. -/
inductive Callback where
  | Event (pevent : EventRecord)
  | Buffer (ptrace : BufferRecord)
deriving DecidableEq, Repr

/-- Runs one callback. -/
def Callback.run (d : Driver) : Callback → Driver
  | .Event pevent => ProcessEvent d pevent
  | .Buffer ptrace => (ProcessBuffer d ptrace).2

/-- Modelled from the spec: the effect of `consumer.ConsumeAllEvents()` on the
producer; `ETWConsumer` is outside the sources at hand.  The trace API calls
the registered callbacks "on each buffer and each event", one after the
other. -/
def ConsumeAllEvents (d : Driver) (callbacks : List Callback) : Driver :=
  callbacks.foldl Callback.run d

/-- The answers a run of `wmain` gets from the consumer and from the system,
in the order it asks for them. -/
structure Run where
  createOk : Bool
  empty : Bool
  streamOpenOk : Bool
  header : Packet
  headerWriteOk : Bool
  callbacks : List Callback
  consumeOk : Bool
  closeOk : Bool
  metadataOpenOk : Bool
  serializeOk : Bool
  metadata : List Nat
  metadataWriteOk : Bool
  finalCloseOk : Bool
deriving DecidableEq, Repr

/-- The function `wmain` of `main.cpp`: the exit code and the producer with
the calls made on it. -/
def wmain (run : Run) : Int × Driver :=
  let d1 := (Driver.start.OpenFolder "ctf" run.createOk).2
  if run.empty then (0, d1)
  else
    let d2 := (d1.OpenStream "stream" run.streamOpenOk).2
    let d3 := (d2.Write run.header.raw_bytes run.header.size run.headerWriteOk).2
    let d4 := ConsumeAllEvents d3 run.callbacks
    if run.consumeOk = false then (-1, d4)
    else
      let d5 := (d4.CloseStream run.closeOk).2
      let d6 := (d5.OpenStream "metadata" run.metadataOpenOk).2
      if run.serializeOk = false then (-1, d6)
      else
        let w := d6.Write run.metadata run.metadata.length run.metadataWriteOk
        if w.1 = false then (-1, w.2)
        else (0, (w.2.CloseStream run.finalCloseOk).2)

/-- The log of calls replays to the producer: the producer is what the calls
made so far give on a fresh producer. -/
def Driver.Consistent (d : Driver) : Prop :=
  d.producer = CTFProducer.new.runCalls d.calls

/-- Every `OpenStream` call of the log was made on a producer with no stream
open: the `assert` of `OpenStream` held at each of them. -/
def Driver.OpenStreamsAsserted (d : Driver) : Prop :=
  ∀ before filename openOk after,
    d.calls = before ++ ProducerCall.OpenStream filename openOk :: after →
    (CTFProducer.new.runCalls before).OpenStreamAsserted

/-- A run on one trace file without buffer nor event, where everything
succeeds. -/
def exampleRun : Run :=
  { createOk := true, empty := false, streamOpenOk := true,
    header := Packet.new.EncodeUInt32 0xC1FC1FC1, headerWriteOk := true, callbacks := [],
    consumeOk := true, closeOk := true, metadataOpenOk := true, serializeOk := true,
    metadata := [0x2F, 0x2A], metadataWriteOk := true, finalCloseOk := true }

/-- Two event records, the first skipped, around one buffer. -/
def exampleCallbacks : List Callback :=
  [Callback.Event { accepted := false, packet := Packet.new.EncodeUInt8 1, writeOk := true },
    Callback.Buffer { closeOk := true, nameOk := true, stream_name := "buffer0", openOk := true,
                      header := Packet.new.EncodeUInt8 0xC1, writeOk := true,
                      processOk := true },
    Callback.Event { accepted := true, packet := Packet.new.EncodeUInt16 0x0302,
                     writeOk := true }]

end etw2ctf

namespace dissector

open converter

/-- The packet and the event the loop of `DecodeEventWithDissectors` has in
hand after each dissector of `chain` was called in turn, from `packet` and
`descr`, and rolled back: `descr->Reset(); packet->Reset(payload_position)`. -/
def stateAfterDeclines (guid : GUID) (opcode : Nat) (payload : List Nat)
    (payload_length payload_position : Nat) : List Dissector → Packet → Event → Packet × Event
  | [], packet, descr => (packet, descr)
  | it :: next, packet, descr =>
    stateAfterDeclines guid opcode payload payload_length payload_position next
      ((it.DecodeEvent guid opcode payload payload_length packet descr).2.1.Reset
        payload_position)
      (it.DecodeEvent guid opcode payload payload_length packet descr).2.2.Reset

/-- Every dissector of `chain` returns false when the loop of
`DecodeEventWithDissectors` calls it, each on the packet and event the
rollback of the one before left. -/
def allDecline (guid : GUID) (opcode : Nat) (payload : List Nat)
    (payload_length payload_position : Nat) : List Dissector → Packet → Event → Bool
  | [], _, _ => true
  | it :: next, packet, descr =>
    !(it.DecodeEvent guid opcode payload payload_length packet descr).1
      && allDecline guid opcode payload payload_length payload_position next
        ((it.DecodeEvent guid opcode payload payload_length packet descr).2.1.Reset
          payload_position)
        (it.DecodeEvent guid opcode payload payload_length packet descr).2.2.Reset

end dissector

namespace converter

/-! ## Event comparison -/

theorem Field.operatorEq_iff_eq (a b : Field) : a.operatorEq b = true ↔ a = b := by
  cases a; cases b
  simp [Field.operatorEq, and_assoc]

theorem fieldsEq_iff (as bs : List Field) : fieldsEq as bs = true ↔ as = bs := by
  induction as generalizing bs with
  | nil => cases bs <;> simp [fieldsEq]
  | cons a as ih =>
    cases bs with
    | nil => simp [fieldsEq]
    | cons b bs => simp [fieldsEq, ih, Field.operatorEq_iff_eq]

theorem Event.operatorEq_iff_members (a b : Event) :
    a.operatorEq b = true ↔
      a.guid = b.guid ∧ a.opcode = b.opcode ∧ a.version = b.version
        ∧ a.event_id = b.event_id ∧ a.fields = b.fields := by
  simp [Event.operatorEq, fieldsEq_iff, and_assoc]

theorem Event.operatorEq_refl (a : Event) : a.operatorEq a = true := by
  simp [Event.operatorEq_iff_members]

theorem Event.operatorEq_symm (a b : Event) : a.operatorEq b = b.operatorEq a := by
  cases h : b.operatorEq a
  · cases h1 : a.operatorEq b
    · rfl
    · rw [Event.operatorEq_iff_members] at h1
      have : b.operatorEq a = true := by
        rw [Event.operatorEq_iff_members]
        exact ⟨h1.1.symm, h1.2.1.symm, h1.2.2.1.symm, h1.2.2.2.1.symm, h1.2.2.2.2.symm⟩
      rw [h] at this
      cases this
  · rw [Event.operatorEq_iff_members] at h ⊢
    exact ⟨h.1.symm, h.2.1.symm, h.2.2.1.symm, h.2.2.2.1.symm, h.2.2.2.2.symm⟩

/-! ## The linear search -/

theorem searchEvent_none_iff (e : Event) (l : List Event) :
    searchEvent e l = none ↔ ∀ it ∈ l, it.operatorEq e = false := by
  induction l with
  | nil => simp [searchEvent]
  | cons it rest ih =>
    cases h : it.operatorEq e <;> simp [searchEvent, h, ih]

theorem searchEvent_some_get (e : Event) (l : List Event) (id : Nat)
    (h : searchEvent e l = some id) :
    id < l.length ∧ ∃ it, l.get? id = some it ∧ it.operatorEq e = true := by
  induction l generalizing id with
  | nil => simp [searchEvent] at h
  | cons it rest ih =>
    cases hit : it.operatorEq e
    · simp only [searchEvent, hit, Bool.false_eq_true, if_false, Option.map_eq_some'] at h
      obtain ⟨j, hj, rfl⟩ := h
      obtain ⟨hlt, x, hx, hxe⟩ := ih j hj
      exact ⟨by simp [hlt], x, by simpa using hx, hxe⟩
    · simp only [searchEvent, hit, if_true, Option.some.injEq] at h
      subst h
      exact ⟨by simp, it, by simp, hit⟩

theorem searchEvent_append_some (e : Event) (l l2 : List Event) (id : Nat)
    (h : searchEvent e l = some id) : searchEvent e (l ++ l2) = some id := by
  induction l generalizing id with
  | nil => simp [searchEvent] at h
  | cons it rest ih =>
    cases hit : it.operatorEq e
    · simp only [searchEvent, hit, Bool.false_eq_true, if_false, Option.map_eq_some'] at h
      obtain ⟨j, hj, rfl⟩ := h
      simp [searchEvent, hit, ih j hj]
    · simp only [searchEvent, hit, if_true, Option.some.injEq] at h
      subst h
      simp [searchEvent, hit]

theorem searchEvent_append_none (e : Event) (l l2 : List Event)
    (h : searchEvent e l = none) :
    searchEvent e (l ++ l2) = (searchEvent e l2).map (fun id => id + l.length) := by
  induction l with
  | nil => simp
  | cons it rest ih =>
    cases hit : it.operatorEq e
    · simp only [searchEvent, hit, Bool.false_eq_true, if_false, Option.map_eq_none'] at h
      rw [List.cons_append]
      simp only [searchEvent, hit, Bool.false_eq_true, if_false]
      rw [ih h]
      cases searchEvent e l2 <;> simp [Nat.add_assoc]
    · simp [searchEvent, hit] at h

theorem searchEvent_self_appended (e : Event) (l : List Event)
    (h : searchEvent e l = none) : searchEvent e (l ++ [e]) = some l.length := by
  rw [searchEvent_append_none e l [e] h]
  simp [searchEvent, Event.operatorEq_refl]

theorem GetIdForEvent_hit (m : Metadata) (e : Event) (id : Nat)
    (h : searchEvent e m.events_ = some id) : m.GetIdForEvent e = (id, m) := by
  simp [Metadata.GetIdForEvent, h]

theorem GetIdForEvent_miss (m : Metadata) (e : Event)
    (h : searchEvent e m.events_ = none) :
    m.GetIdForEvent e = (m.events_.length, { events_ := m.events_ ++ [e] }) := by
  simp [Metadata.GetIdForEvent, h]

end converter

namespace converter

/-! ## The dictionary -/

theorem GetIdForEvents_fresh (m : Metadata) (es : List Event)
    (hm : ∀ it ∈ m.events_, ∀ e ∈ es, it.operatorEq e = false)
    (hp : es.Pairwise (fun a b => a.operatorEq b = false)) :
    m.GetIdForEvents es
      = (List.range' m.events_.length es.length, { events_ := m.events_ ++ es }) := by
  induction es generalizing m with
  | nil => simp [Metadata.GetIdForEvents]
  | cons e es ih =>
    have hnone : searchEvent e m.events_ = none :=
      (searchEvent_none_iff e m.events_).2 (fun it hit => hm it hit e (by simp))
    rw [List.pairwise_cons] at hp
    have hm2 : ∀ it ∈ ({ events_ := m.events_ ++ [e] } : Metadata).events_,
        ∀ x ∈ es, it.operatorEq x = false := by
      intro it hit x hx
      simp only [List.mem_append, List.mem_singleton] at hit
      rcases hit with hit | rfl
      · exact hm it hit x (by simp [hx])
      · exact hp.1 x hx
    have h2 := ih { events_ := m.events_ ++ [e] } hm2 hp.2
    simp only [Metadata.GetIdForEvents, GetIdForEvent_miss m e hnone, h2]
    simp [List.range', Nat.add_comm]

theorem GetIdForEvents_registered (m : Metadata) (e : Event) (id k : Nat)
    (h : searchEvent e m.events_ = some id) :
    m.GetIdForEvents (List.replicate k e) = (List.replicate k id, m) := by
  induction k with
  | zero => simp [Metadata.GetIdForEvents]
  | succ k ih =>
    simp [List.replicate_succ, Metadata.GetIdForEvents, GetIdForEvent_hit m e id h, ih]

theorem GetIdForEvent_then_registered (m : Metadata) (e : Event) :
    searchEvent e (m.GetIdForEvent e).2.events_ = some (m.GetIdForEvent e).1 := by
  cases h : searchEvent e m.events_ with
  | none =>
    rw [GetIdForEvent_miss m e h]
    exact searchEvent_self_appended e m.events_ h
  | some id =>
    rw [GetIdForEvent_hit m e id h]
    exact h

theorem GetIdForEvent_size (m : Metadata) (e : Event) :
    (m.GetIdForEvent e).2.size
      = m.size + (if m.events_.any (fun it => it.operatorEq e) then 0 else 1) := by
  cases h : searchEvent e m.events_ with
  | none =>
    have hall := (searchEvent_none_iff e m.events_).1 h
    have hany : m.events_.any (fun it => it.operatorEq e) = false := by
      simpa [List.any_eq_false] using hall
    rw [GetIdForEvent_miss m e h, hany]
    simp [Metadata.size]
  | some id =>
    obtain ⟨_, it, hget, heq⟩ := searchEvent_some_get e m.events_ id h
    have hany : m.events_.any (fun it => it.operatorEq e) = true := by
      rw [List.any_eq_true]
      exact ⟨it, List.get?_mem hget, heq⟩
    rw [GetIdForEvent_hit m e id h, hany]
    simp

theorem GetIdForEvent_unique (m : Metadata) (e : Event) (h : m.Unique) :
    (m.GetIdForEvent e).2.Unique := by
  cases hs : searchEvent e m.events_ with
  | none =>
    rw [GetIdForEvent_miss m e hs]
    unfold Metadata.Unique at h ⊢
    rw [List.pairwise_append]
    refine ⟨h, by simp, ?_⟩
    intro a ha b hb
    simp only [List.mem_singleton] at hb
    subst hb
    exact (searchEvent_none_iff b m.events_).1 hs a ha
  | some id =>
    rw [GetIdForEvent_hit m e id hs]
    exact h

theorem GetIdForEvents_unique (m : Metadata) (es : List Event) (h : m.Unique) :
    (m.GetIdForEvents es).2.Unique := by
  induction es generalizing m with
  | nil => simpa [Metadata.GetIdForEvents] using h
  | cons e es ih =>
    simp only [Metadata.GetIdForEvents]
    exact ih _ (GetIdForEvent_unique m e h)

theorem GetEventWithId_some (m : Metadata) (i : Nat) (a : Event)
    (h : m.GetEventWithId i = some a) :
    ∃ hi : i < m.events_.length, m.events_[i] = a := by
  unfold Metadata.GetEventWithId at h
  by_cases hi : i < m.events_.length
  · rw [if_pos hi, List.get?_eq_getElem?, List.getElem?_eq_getElem hi] at h
    exact ⟨hi, Option.some.inj h⟩
  · rw [if_neg hi] at h
    cases h

end converter

namespace converter

/-! ## Claims on the dictionary -/

/-- C1: for pairwise unequal events `e1..eN` (under `Event::operator==`),
the calls `GetIdForEvent(e1)`, ..., `GetIdForEvent(eN)` on an empty `Metadata`
return `0, 1, ..., N-1` in that order, and `size()` is `N` afterwards. -/
theorem C1_distinct_events_get_dense_ids (es : List Event)
    (h : es.Pairwise (fun a b => a.operatorEq b = false)) :
    (Metadata.new.GetIdForEvents es).1 = List.range es.length
      ∧ (Metadata.new.GetIdForEvents es).2.size = es.length := by
  have hfresh := GetIdForEvents_fresh Metadata.new es (by simp [Metadata.new]) h
  rw [hfresh]
  simp [Metadata.new, Metadata.size, List.range_eq_range']

/-- C1 at three pairwise unequal events: ids 0, 1, 2 and size 3. -/
theorem C1_distinct_events_witness :
    [scenarioE1, scenarioE2, scenarioE].Pairwise (fun a b => a.operatorEq b = false)
      ∧ (Metadata.new.GetIdForEvents [scenarioE1, scenarioE2, scenarioE]).1 = [0, 1, 2]
      ∧ (Metadata.new.GetIdForEvents [scenarioE1, scenarioE2, scenarioE]).2.size = 3 :=
  ⟨by decide,
    (C1_distinct_events_get_dense_ids [scenarioE1, scenarioE2, scenarioE] (by decide)).1,
    (C1_distinct_events_get_dense_ids [scenarioE1, scenarioE2, scenarioE] (by decide)).2⟩

/-- C2 as stated fails: on a `Metadata` that already holds `e`, one more call
`GetIdForEvent(e)` (k = 1) leaves `size()` at 1 instead of adding one. -/
theorem C2_size_not_incremented_when_registered :
    ((Metadata.new.GetIdForEvent scenarioE).2.GetIdForEventTimes scenarioE 1).2.size
        = (Metadata.new.GetIdForEvent scenarioE).2.size
      ∧ ((Metadata.new.GetIdForEvent scenarioE).2.GetIdForEventTimes scenarioE 1).2.size
        ≠ (Metadata.new.GetIdForEvent scenarioE).2.size + 1 := by
  decide

/-- C2 amended: `k ≥ 1` calls `GetIdForEvent(e)` in a row return the same id
on every call, and over the `k` calls `size()` grows by exactly one when no
entry of the `Metadata` compared equal to `e` before the first call, and is
unchanged when one did. -/
theorem C2_repeated_calls_same_id (m : Metadata) (e : Event) (k : Nat) (hk : 1 ≤ k) :
    (m.GetIdForEventTimes e k).1 = List.replicate k (m.GetIdForEvent e).1
      ∧ (m.GetIdForEventTimes e k).2.size
          = m.size + (if m.events_.any (fun it => it.operatorEq e) then 0 else 1) := by
  obtain ⟨n, rfl⟩ : ∃ n, k = n + 1 := ⟨k - 1, by omega⟩
  have hreg := GetIdForEvents_registered (m.GetIdForEvent e).2 e (m.GetIdForEvent e).1 n
    (GetIdForEvent_then_registered m e)
  unfold Metadata.GetIdForEventTimes
  rw [List.replicate_succ]
  simp only [Metadata.GetIdForEvents, hreg]
  exact ⟨by simp [List.replicate_succ], GetIdForEvent_size m e⟩

/-- C2 amended, at the spec's scenario 3: two calls on an empty `Metadata`
return id 0 twice and leave size 1. -/
theorem C2_repeated_calls_witness :
    1 ≤ 2 ∧ (Metadata.new.GetIdForEventTimes scenarioE 2).1 = [0, 0]
      ∧ (Metadata.new.GetIdForEventTimes scenarioE 2).2.size = 1 :=
  ⟨by decide, (C2_repeated_calls_same_id Metadata.new scenarioE 2 (by decide)).1,
    (C2_repeated_calls_same_id Metadata.new scenarioE 2 (by decide)).2⟩

/-- C3: after `GetIdForEvent(e)` every id below the old `size()` still maps to
the same event, and when no entry compared equal to `e` the id returned is the
old `size()`, above every id assigned before. -/
theorem C3_id_assignment_monotone (m : Metadata) (e : Event) :
    (∀ i, i < m.size → (m.GetIdForEvent e).2.GetEventWithId i = m.GetEventWithId i)
      ∧ ((∀ it ∈ m.events_, it.operatorEq e = false) →
          (m.GetIdForEvent e).1 = m.size ∧ ∀ j, j < m.size → j < (m.GetIdForEvent e).1) := by
  constructor
  · intro i hi
    cases hs : searchEvent e m.events_ with
    | none =>
      rw [GetIdForEvent_miss m e hs]
      unfold Metadata.size at hi
      have hi2 : i < (m.events_ ++ [e]).length := by simp; omega
      simp only [Metadata.GetEventWithId, if_pos hi, if_pos hi2, List.get?_eq_getElem?]
      exact List.getElem?_append_left hi
    | some id => rw [GetIdForEvent_hit m e id hs]
  · intro hnew
    have hs := (searchEvent_none_iff e m.events_).2 hnew
    rw [GetIdForEvent_miss m e hs]
    exact ⟨rfl, fun j hj => hj⟩

/-- C3 on the dictionary `[E1]` and the new event `E2`: id 0 keeps `E1`, and
`E2` gets id 1. -/
theorem C3_id_assignment_witness :
    ((Metadata.new.GetIdForEvent scenarioE1).2.GetIdForEvent scenarioE2).2.GetEventWithId 0
        = (Metadata.new.GetIdForEvent scenarioE1).2.GetEventWithId 0
      ∧ ((Metadata.new.GetIdForEvent scenarioE1).2.GetIdForEvent scenarioE2).1 = 1 :=
  ⟨(C3_id_assignment_monotone (Metadata.new.GetIdForEvent scenarioE1).2 scenarioE2).1 0
      (by decide),
    ((C3_id_assignment_monotone (Metadata.new.GetIdForEvent scenarioE1).2 scenarioE2).2
      (by decide)).1⟩

/-- C4: in every `Metadata` reached from the empty one by `GetIdForEvent`
calls, two different ids below `size()` never hold events that compare equal. -/
theorem C4_unique_id_per_layout (es : List Event) (i j : Nat) (a b : Event) (hij : i ≠ j)
    (ha : (Metadata.new.GetIdForEvents es).2.GetEventWithId i = some a)
    (hb : (Metadata.new.GetIdForEvents es).2.GetEventWithId j = some b) :
    a.operatorEq b = false := by
  have huniq : (Metadata.new.GetIdForEvents es).2.Unique :=
    GetIdForEvents_unique Metadata.new es (by simp [Metadata.Unique, Metadata.new])
  obtain ⟨hi, rfl⟩ := GetEventWithId_some _ i a ha
  obtain ⟨hj, rfl⟩ := GetEventWithId_some _ j b hb
  unfold Metadata.Unique at huniq
  rw [List.pairwise_iff_getElem] at huniq
  rcases Nat.lt_or_gt_of_ne hij with hlt | hgt
  · exact huniq i j hi hj hlt
  · rw [Event.operatorEq_symm]
    exact huniq j i hj hi hgt

/-- C4 after registering `E1`, `E2`, `E1`: ids 0 and 1 hold unequal events. -/
theorem C4_unique_id_witness :
    (Metadata.new.GetIdForEvents [scenarioE1, scenarioE2, scenarioE1]).2.GetEventWithId 0
        = some scenarioE1
      ∧ (Metadata.new.GetIdForEvents [scenarioE1, scenarioE2, scenarioE1]).2.GetEventWithId 1
        = some scenarioE2
      ∧ scenarioE1.operatorEq scenarioE2 = false :=
  ⟨by decide, by decide,
    C4_unique_id_per_layout [scenarioE1, scenarioE2, scenarioE1] 0 1 scenarioE1 scenarioE2
      (by decide) (by decide) (by decide)⟩

/-- C5: with `id = GetIdForEvent(e)`, `id < size()` and `GetEventWithId(id)`
succeeds with an event that compares equal to `e`: same guid, opcode, version,
event id and the same ordered fields. -/
theorem C5_lookup_undoes_registration (m : Metadata) (e : Event) :
    (m.GetIdForEvent e).1 < (m.GetIdForEvent e).2.size
      ∧ ∃ it, (m.GetIdForEvent e).2.GetEventWithId (m.GetIdForEvent e).1 = some it
          ∧ it.operatorEq e = true
          ∧ it.guid = e.guid ∧ it.opcode = e.opcode ∧ it.version = e.version
          ∧ it.event_id = e.event_id ∧ it.fields = e.fields := by
  obtain ⟨hlt, it, hget, heq⟩ :=
    searchEvent_some_get e _ _ (GetIdForEvent_then_registered m e)
  refine ⟨hlt, it, ?_, heq, (Event.operatorEq_iff_members it e).1 heq⟩
  unfold Metadata.GetEventWithId
  rw [if_pos hlt]
  exact hget

end converter

namespace dissector

open converter

/-! ## The dissector chain -/

theorem decodeLoop_claimed (guid : GUID) (opcode : Nat) (payload : List Nat)
    (payload_length pos : Nat) (it : Dissector) (next : List Dissector)
    (packet packet1 : Packet) (descr descr1 : Event)
    (h : it.DecodeEvent guid opcode payload payload_length packet descr
      = (true, packet1, descr1)) :
    decodeLoop guid opcode payload payload_length pos (it :: next) packet descr
      = { claimed := true, packet := packet1, descr := descr1, calls := [it] } := by
  simp [decodeLoop, h]

theorem decodeLoop_declined (guid : GUID) (opcode : Nat) (payload : List Nat)
    (payload_length pos : Nat) (it : Dissector) (next : List Dissector)
    (packet packet1 : Packet) (descr descr1 : Event)
    (h : it.DecodeEvent guid opcode payload payload_length packet descr
      = (false, packet1, descr1)) :
    decodeLoop guid opcode payload payload_length pos (it :: next) packet descr
      = { decodeLoop guid opcode payload payload_length pos next
            (packet1.Reset pos) descr1.Reset with
          calls := it :: (decodeLoop guid opcode payload payload_length pos next
            (packet1.Reset pos) descr1.Reset).calls } := by
  simp [decodeLoop, h]

theorem Packet.Reset_appended (p : Packet) (bytes : List Nat) :
    Packet.Reset { p with buffer_ := p.buffer_ ++ bytes } p.size = p := by
  cases p
  simp [Packet.Reset, Packet.size]

theorem Event.Reset_fields (e : Event) (fields : List Field) :
    Event.Reset { e with fields := fields } = e.Reset := by
  simp [Event.Reset]

theorem Event.Reset_of_no_field (e : Event) (h : e.fields = []) : e.Reset = e := by
  cases e
  simp only [Event.Reset]
  simp only at h
  rw [h]

theorem registerAll_eq (ds reg : List Dissector) : registerAll ds reg = ds.reverse ++ reg := by
  induction ds generalizing reg with
  | nil => simp [registerAll]
  | cons d ds ih =>
    have : registerAll (d :: ds) reg = registerAll ds (d.register reg) := by
      simp [registerAll]
    rw [this, ih]
    simp [Dissector.register]

theorem decodeLoop_calls (guid : GUID) (opcode : Nat) (payload : List Nat)
    (payload_length pos : Nat) (chain : List Dissector) (packet : Packet) (descr : Event) :
    (decodeLoop guid opcode payload payload_length pos chain packet descr).calls <+: chain
      ∧ ((decodeLoop guid opcode payload payload_length pos chain packet descr).claimed = false
          → (decodeLoop guid opcode payload payload_length pos chain packet descr).calls
              = chain) := by
  induction chain generalizing packet descr with
  | nil => simp [decodeLoop]
  | cons it next ih =>
    rcases hr : it.DecodeEvent guid opcode payload payload_length packet descr
      with ⟨b, packet1, descr1⟩
    cases b
    · rw [decodeLoop_declined guid opcode payload payload_length pos it next packet packet1
        descr descr1 hr]
      obtain ⟨h1, h2⟩ := ih (packet1.Reset pos) descr1.Reset
      refine ⟨?_, ?_⟩
      · simpa [List.cons_prefix_cons] using h1
      · intro hc
        simpa using h2 hc
    · rw [decodeLoop_claimed guid opcode payload payload_length pos it next packet packet1
        descr descr1 hr]
      simp [List.cons_prefix_cons]

end dissector

namespace dissector

open converter

theorem exampleD1_appendOnly : AppendOnly exampleD1 := by
  intro guid opcode payload payload_length packet descr
  exact ⟨⟨[0xFF % 2 ^ 8], rfl⟩, ⟨[Field.mk2 FieldType.INT8 "junk"], rfl⟩⟩

theorem exampleD2_appendOnly : AppendOnly exampleD2 := by
  intro guid opcode payload payload_length packet descr
  exact ⟨⟨[0xAB % 2 ^ 8], rfl⟩, ⟨[Field.mk2 FieldType.UINT8 "x"], rfl⟩⟩

theorem decodeLoop_first_claimer (guid : GUID) (opcode : Nat) (payload : List Nat)
    (payload_length : Nat) (chain : List Dissector) (packet : Packet) (descr : Event)
    (hchain : ∀ d ∈ chain, AppendOnly d) (hdescr : descr.fields = []) :
    ((decodeLoop guid opcode payload payload_length packet.size chain packet descr).claimed
          = true
        ↔ ∃ d ∈ chain, (d.DecodeEvent guid opcode payload payload_length packet descr).1 = true)
      ∧ ((decodeLoop guid opcode payload payload_length packet.size chain packet descr).claimed
          = true →
        ∃ before d after, chain = before ++ d :: after
          ∧ (∀ x ∈ before,
              (x.DecodeEvent guid opcode payload payload_length packet descr).1 = false)
          ∧ d.DecodeEvent guid opcode payload payload_length packet descr
              = (true,
                (decodeLoop guid opcode payload payload_length packet.size chain packet
                  descr).packet,
                (decodeLoop guid opcode payload payload_length packet.size chain packet
                  descr).descr)
          ∧ (decodeLoop guid opcode payload payload_length packet.size chain packet descr).calls
              = before ++ [d]) := by
  induction chain with
  | nil => simp [decodeLoop]
  | cons it next ih =>
    have hnext : ∀ d ∈ next, AppendOnly d := fun d hd => hchain d (by simp [hd])
    obtain ⟨ih1, ih2⟩ := ih hnext
    rcases hr : it.DecodeEvent guid opcode payload payload_length packet descr
      with ⟨b, packet1, descr1⟩
    cases b
    · obtain ⟨⟨bytes, hb⟩, ⟨fields, hf⟩⟩ :=
        hchain it (by simp) guid opcode payload payload_length packet descr
      rw [hr] at hb hf
      simp only at hb hf
      have hp : packet1.Reset packet.size = packet := by
        rw [hb]; exact Packet.Reset_appended packet bytes
      have he : descr1.Reset = descr := by
        rw [hf, Event.Reset_fields]; exact Event.Reset_of_no_field descr hdescr
      rw [decodeLoop_declined guid opcode payload payload_length packet.size it next packet
        packet1 descr descr1 hr, hp, he]
      refine ⟨?_, ?_⟩
      · simp only [List.mem_cons, exists_eq_or_imp, hr, Bool.false_eq_true, false_or]
        exact ih1
      · intro hc
        obtain ⟨before, d, after, hsplit, hbefore, hd, hcalls⟩ := ih2 hc
        refine ⟨it :: before, d, after, by simp [hsplit], ?_, hd, by simp [hcalls]⟩
        intro x hx
        simp only [List.mem_cons] at hx
        rcases hx with rfl | hx
        · rw [hr]
        · exact hbefore x hx
    · rw [decodeLoop_claimed guid opcode payload payload_length packet.size it next packet
        packet1 descr descr1 hr]
      refine ⟨?_, ?_⟩
      · simp only [List.mem_cons, exists_eq_or_imp, hr, true_or]
      · intro _
        exact ⟨[], it, next, by simp, by simp, hr, by simp⟩

/-! ## Claims on the dissector chain -/

end dissector

namespace dissector

open converter

/-- C7: for a chain of dissectors that only append and an event without
field, `DecodeEventWithDissectors` returns true iff some dissector of the
chain returns true on the packet and event of the call; then the chain splits
at the first such dissector, the dissectors called are those up to it and
none after it, and the final packet and event are what it returns on the
packet and event of the call. -/
theorem C7_first_claimer_wins (dissectors : List Dissector) (guid : GUID) (opcode : Nat)
    (payload : List Nat) (payload_length : Nat) (packet : Packet) (descr : Event)
    (hchain : ∀ d ∈ dissectors, AppendOnly d) (hdescr : descr.fields = []) :
    ((DecodeEventWithDissectors dissectors guid opcode payload payload_length packet
          descr).claimed = true
        ↔ ∃ d ∈ dissectors,
            (d.DecodeEvent guid opcode payload payload_length packet descr).1 = true)
      ∧ ((DecodeEventWithDissectors dissectors guid opcode payload payload_length packet
          descr).claimed = true →
        ∃ before d after, dissectors = before ++ d :: after
          ∧ (∀ x ∈ before,
              (x.DecodeEvent guid opcode payload payload_length packet descr).1 = false)
          ∧ d.DecodeEvent guid opcode payload payload_length packet descr
              = (true,
                (DecodeEventWithDissectors dissectors guid opcode payload payload_length
                  packet descr).packet,
                (DecodeEventWithDissectors dissectors guid opcode payload payload_length
                  packet descr).descr)
          ∧ (DecodeEventWithDissectors dissectors guid opcode payload payload_length packet
              descr).calls = before ++ [d]) :=
  decodeLoop_first_claimer guid opcode payload payload_length dissectors packet descr hchain
    hdescr

/-- C7 on the spec's scenario 5: the chain `D1` (always false), `D2` (always
true, emits `UINT8 "x"` and the byte `AB`) claims the payload, and the event
ends with the fields `[UINT8 "x"]`, the packet with its bytes followed by `AB`. -/
theorem C7_first_claimer_witness :
    (∀ d ∈ [exampleD1, exampleD2], AppendOnly d)
      ∧ Event.new.fields = []
      ∧ ((DecodeEventWithDissectors [exampleD1, exampleD2] exampleGuid 0 [1, 2] 2
            examplePacket Event.new).claimed = true
          ↔ ∃ d ∈ [exampleD1, exampleD2],
              (d.DecodeEvent exampleGuid 0 [1, 2] 2 examplePacket Event.new).1 = true)
      ∧ (DecodeEventWithDissectors [exampleD1, exampleD2] exampleGuid 0 [1, 2] 2
          examplePacket Event.new).claimed = true
      ∧ (DecodeEventWithDissectors [exampleD1, exampleD2] exampleGuid 0 [1, 2] 2
          examplePacket Event.new).descr.fields = [Field.mk2 FieldType.UINT8 "x"]
      ∧ (DecodeEventWithDissectors [exampleD1, exampleD2] exampleGuid 0 [1, 2] 2
          examplePacket Event.new).packet.buffer_ = examplePacket.buffer_ ++ [0xAB] := by
  have happend : ∀ d ∈ [exampleD1, exampleD2], AppendOnly d := by
    intro d hd
    simp only [List.mem_cons, List.mem_singleton, List.not_mem_nil, or_false] at hd
    rcases hd with rfl | rfl
    · exact exampleD1_appendOnly
    · exact exampleD2_appendOnly
  exact ⟨happend, rfl,
    (C7_first_claimer_wins [exampleD1, exampleD2] exampleGuid 0 [1, 2] 2 examplePacket
      Event.new happend rfl).1,
    by decide, by decide, by decide⟩

/-- C8 as stated fails: with `D1` constructed first and `D4` second, both
declining, `DecodeEventWithDissectors` calls `D4` first and `D1` last. -/
theorem C8_last_registered_is_tried_first :
    (DecodeEventWithDissectors (registerAll [exampleD1, exampleD4] []) exampleGuid 0 [1, 2] 2
        examplePacket Event.new).calls.map (fun d => d.name_) = ["D4", "D1"]
      ∧ [exampleD1, exampleD4].map (fun d => d.name_) = ["D1", "D4"] := by
  decide

/-- What the loop did, read off its result: unclaimed, every dissector of the
chain was called and declined; claimed, the chain splits at a dissector that
claimed after all those before it declined, and no other was called. -/
theorem decodeLoop_trace (guid : GUID) (opcode : Nat) (payload : List Nat)
    (payload_length pos : Nat) (chain : List Dissector) (packet : Packet) (descr : Event) :
    ((decodeLoop guid opcode payload payload_length pos chain packet descr).claimed = false →
        (decodeLoop guid opcode payload payload_length pos chain packet descr).calls = chain
          ∧ allDecline guid opcode payload payload_length pos chain packet descr = true)
      ∧ ((decodeLoop guid opcode payload payload_length pos chain packet descr).claimed = true →
        ∃ before d after, chain = before ++ d :: after
          ∧ (decodeLoop guid opcode payload payload_length pos chain packet descr).calls
              = before ++ [d]
          ∧ allDecline guid opcode payload payload_length pos before packet descr = true
          ∧ d.DecodeEvent guid opcode payload payload_length
              (stateAfterDeclines guid opcode payload payload_length pos before packet
                descr).1
              (stateAfterDeclines guid opcode payload payload_length pos before packet
                descr).2
            = (true,
                (decodeLoop guid opcode payload payload_length pos chain packet descr).packet,
                (decodeLoop guid opcode payload payload_length pos chain packet
                  descr).descr)) := by
  induction chain generalizing packet descr with
  | nil => simp [decodeLoop, allDecline]
  | cons it next ih =>
    rcases hr : it.DecodeEvent guid opcode payload payload_length packet descr
      with ⟨b, packet1, descr1⟩
    cases b
    · obtain ⟨ih1, ih2⟩ := ih (packet1.Reset pos) descr1.Reset
      rw [decodeLoop_declined guid opcode payload payload_length pos it next packet packet1
        descr descr1 hr]
      refine ⟨?_, ?_⟩
      · intro hc
        obtain ⟨hcalls, hall⟩ := ih1 hc
        exact ⟨by simp [hcalls], by simp [allDecline, hr, hall]⟩
      · intro hc
        obtain ⟨before, d, after, hsplit, hcalls, hall, hd⟩ := ih2 hc
        refine ⟨it :: before, d, after, by simp [hsplit], by simp [hcalls],
          by simp [allDecline, hr, hall], ?_⟩
        simpa [stateAfterDeclines, hr] using hd
    · rw [decodeLoop_claimed guid opcode payload payload_length pos it next packet packet1
        descr descr1 hr]
      refine ⟨by simp, ?_⟩
      intro _
      exact ⟨[], it, next, by simp, by simp, by simp [allDecline],
        by simpa [stateAfterDeclines] using hr⟩

theorem decodeLoop_first_call (guid : GUID) (opcode : Nat) (payload : List Nat)
    (payload_length pos : Nat) (chain : List Dissector) (packet : Packet) (descr : Event) :
    (decodeLoop guid opcode payload payload_length pos chain packet descr).calls.head?
      = chain.head? := by
  cases chain with
  | nil => simp [decodeLoop]
  | cons it next =>
    rcases hr : it.DecodeEvent guid opcode payload payload_length packet descr
      with ⟨b, packet1, descr1⟩
    cases b
    · rw [decodeLoop_declined guid opcode payload payload_length pos it next packet packet1
        descr descr1 hr]
      simp
    · rw [decodeLoop_claimed guid opcode payload payload_length pos it next packet packet1
        descr descr1 hr]
      simp

/-- C8 amended: for dissectors constructed in the order `d1, ..., dn` (from
an empty list), `DecodeEventWithDissectors` calls `DecodeEvent` in the reverse
order, on `dn` first, and stops at the first that claims: the dissectors
called are a front part of `dn, ..., d1` that starts with `dn`; when none
claims they are all of them, each having declined; when one claims, the list
`dn, ..., d1` splits at a dissector that returned true after every one before
it declined, the calls end with it, and the result is what it returned. -/
theorem C8_tried_in_reverse_registration_order (ds : List Dissector) (guid : GUID)
    (opcode : Nat) (payload : List Nat) (payload_length : Nat) (packet : Packet)
    (descr : Event) :
    (DecodeEventWithDissectors (registerAll ds []) guid opcode payload payload_length packet
        descr).calls <+: ds.reverse
      ∧ (DecodeEventWithDissectors (registerAll ds []) guid opcode payload payload_length
          packet descr).calls.head? = ds.getLast?
      ∧ ((DecodeEventWithDissectors (registerAll ds []) guid opcode payload payload_length
          packet descr).claimed = false →
        (DecodeEventWithDissectors (registerAll ds []) guid opcode payload payload_length
            packet descr).calls = ds.reverse
          ∧ allDecline guid opcode payload payload_length packet.size ds.reverse packet descr
              = true)
      ∧ ((DecodeEventWithDissectors (registerAll ds []) guid opcode payload payload_length
          packet descr).claimed = true →
        ∃ before d after, ds.reverse = before ++ d :: after
          ∧ (DecodeEventWithDissectors (registerAll ds []) guid opcode payload payload_length
              packet descr).calls = before ++ [d]
          ∧ allDecline guid opcode payload payload_length packet.size before packet descr
              = true
          ∧ d.DecodeEvent guid opcode payload payload_length
              (stateAfterDeclines guid opcode payload payload_length packet.size before packet
                descr).1
              (stateAfterDeclines guid opcode payload payload_length packet.size before packet
                descr).2
            = (true,
                (DecodeEventWithDissectors (registerAll ds []) guid opcode payload
                  payload_length packet descr).packet,
                (DecodeEventWithDissectors (registerAll ds []) guid opcode payload
                  payload_length packet descr).descr)) := by
  have hreg : registerAll ds [] = ds.reverse := by
    rw [registerAll_eq ds [], List.append_nil]
  have hcalls := decodeLoop_calls guid opcode payload payload_length packet.size
    ds.reverse packet descr
  have htrace := decodeLoop_trace guid opcode payload payload_length packet.size
    ds.reverse packet descr
  have hfirst := decodeLoop_first_call guid opcode payload payload_length packet.size
    ds.reverse packet descr
  rw [List.head?_reverse] at hfirst
  unfold DecodeEventWithDissectors
  rw [hreg]
  exact ⟨hcalls.1, hfirst, htrace.1, htrace.2⟩

/-- C8 amended, with `D1`, `D4` constructed in this order and both declining:
the dissectors called are `D4`, `D1`. -/
theorem C8_reverse_order_witness :
    (DecodeEventWithDissectors (registerAll [exampleD1, exampleD4] []) exampleGuid 0 [1, 2] 2
        examplePacket Event.new).calls = [exampleD1, exampleD4].reverse :=
  ((C8_tried_in_reverse_registration_order [exampleD1, exampleD4] exampleGuid 0 [1, 2] 2
    examplePacket Event.new).2.2.1 (by decide)).1

end dissector

namespace converter

/-! ## The packet encoder -/

theorem littleEndian_succ (width v : Nat) :
    littleEndian (width + 1) v = v % 256 :: littleEndian width (v / 256) := by
  simp only [littleEndian, List.range_succ_eq_map, List.map_cons, List.map_map, pow_zero,
    Nat.div_one]
  congr 1
  apply List.map_congr_left
  intro i _
  simp [Function.comp, pow_succ', Nat.div_div_eq_div_mul]

theorem littleEndian_length (width v : Nat) : (littleEndian width v).length = width := by
  simp [littleEndian]

theorem littleEndianValue_littleEndian (width v : Nat) :
    littleEndianValue (littleEndian width v) = v % 256 ^ width := by
  induction width generalizing v with
  | zero => simp [littleEndian, littleEndianValue, Nat.mod_one]
  | succ w ih =>
    rw [littleEndian_succ, littleEndianValue, ih, pow_succ', Nat.mod_mul]

theorem EncodeCall.run_buffer (p : Packet) (c : EncodeCall) :
    (c.run p).buffer_ = p.buffer_ ++ littleEndian c.width c.value := by
  cases c with
  | UInt8 v =>
    simp [EncodeCall.run, EncodeCall.width, EncodeCall.value, Packet.EncodeUInt8, littleEndian,
      List.range_succ]
  | UInt16 v =>
    simp only [EncodeCall.run, EncodeCall.width, EncodeCall.value, Packet.EncodeUInt16,
      Packet.EncodeUInt8, littleEndian, List.range_succ, List.range_zero, List.nil_append,
      List.map_append, List.map_cons, List.map_nil, List.append_assoc, List.cons_append]
    norm_num
    omega
  | UInt32 v =>
    simp only [EncodeCall.run, EncodeCall.width, EncodeCall.value, Packet.EncodeUInt32,
      Packet.EncodeUInt8, littleEndian, List.range_succ, List.range_zero, List.nil_append,
      List.map_append, List.map_cons, List.map_nil, List.append_assoc, List.cons_append]
    norm_num
    omega
  | UInt64 v =>
    simp only [EncodeCall.run, EncodeCall.width, EncodeCall.value, Packet.EncodeUInt64,
      Packet.EncodeUInt8, littleEndian, List.range_succ, List.range_zero, List.nil_append,
      List.map_append, List.map_cons, List.map_nil, List.append_assoc, List.cons_append]
    norm_num
    omega

theorem EncodeAll_buffer (p : Packet) (calls : List EncodeCall) :
    (p.EncodeAll calls).buffer_
      = p.buffer_ ++ (calls.map (fun c => littleEndian c.width c.value)).flatten := by
  induction calls generalizing p with
  | nil => simp [Packet.EncodeAll]
  | cons c cs ih =>
    have hstep : p.EncodeAll (c :: cs) = (c.run p).EncodeAll cs := by
      simp [Packet.EncodeAll]
    rw [hstep, ih, EncodeCall.run_buffer]
    simp

/-- C10: on an empty packet, after a sequence of `EncodeUInt8/16/32/64` calls
`raw_bytes()` is the concatenation, in call order, of the little-endian
encodings of the arguments at their widths, and `size()` is the sum of the
widths; each encoding has the width of its call and reads back, little-endian,
as the argument converted to its type. -/
theorem C10_fixed_width_encoders_little_endian (p : Packet) (calls : List EncodeCall)
    (hempty : p.size = 0) :
    (p.EncodeAll calls).raw_bytes
        = (calls.map (fun c => littleEndian c.width c.value)).flatten
      ∧ (p.EncodeAll calls).size = (calls.map EncodeCall.width).sum
      ∧ ∀ c ∈ calls, (littleEndian c.width c.value).length = c.width
          ∧ littleEndianValue (littleEndian c.width c.value) = c.value % 2 ^ (8 * c.width) := by
  have hnil : p.buffer_ = [] := List.length_eq_zero.mp hempty
  have hbuf := EncodeAll_buffer p calls
  rw [hnil, List.nil_append] at hbuf
  refine ⟨hbuf, ?_, ?_⟩
  · unfold Packet.size
    rw [hbuf, List.length_flatten, List.map_map]
    congr 1
    apply List.map_congr_left
    intro c _
    simp [littleEndian_length]
  · intro c _
    refine ⟨littleEndian_length _ _, ?_⟩
    rw [littleEndianValue_littleEndian, pow_mul]
    norm_num

/-- C10 on the spec's scenario 1: u8 `0x01`, u16 `0x0302`, u32 `0x07060504`
give the seven bytes `01 02 03 04 05 06 07`. -/
theorem C10_fixed_width_encoders_witness :
    Packet.new.size = 0
      ∧ (Packet.new.EncodeAll
          [EncodeCall.UInt8 0x01, EncodeCall.UInt16 0x0302, EncodeCall.UInt32 0x07060504]).raw_bytes
        = [1, 2, 3, 4, 5, 6, 7]
      ∧ (Packet.new.EncodeAll
          [EncodeCall.UInt8 0x01, EncodeCall.UInt16 0x0302, EncodeCall.UInt32 0x07060504]).size
        = 7 := by
  have h := C10_fixed_width_encoders_little_endian Packet.new
    [EncodeCall.UInt8 0x01, EncodeCall.UInt16 0x0302, EncodeCall.UInt32 0x07060504] rfl
  refine ⟨rfl, ?_, ?_⟩
  · rw [h.1]; decide
  · rw [h.2.1]; decide

end converter

namespace converter

/-! ## Back-patching, truncation and strings -/

/-- C11: for a position with `position + 4 ≤ size()`, `UpdateUInt32` succeeds;
afterwards the four bytes from `position` are the little-endian bytes of the
value, every byte outside `[position, position + 4)` is the byte it was, and
`size()` is what it was. -/
theorem C11_update_is_local (p : Packet) (position value : Nat)
    (h : position + 4 ≤ p.size) :
    ∃ q, p.UpdateUInt32 position value = some q
      ∧ (q.raw_bytes.drop position).take 4 = littleEndian 4 value
      ∧ (∀ i, i < position ∨ position + 4 ≤ i → q.raw_bytes.get? i = p.raw_bytes.get? i)
      ∧ q.size = p.size := by
  unfold Packet.size at h
  simp only [Packet.UpdateUInt32, if_pos h]
  refine ⟨_, rfl, ?_, ?_, ?_⟩
  · apply List.ext_getElem?
    intro k
    simp only [Packet.raw_bytes, littleEndian, List.getElem?_take, List.getElem?_drop,
      List.getElem?_set, List.length_set, List.getElem?_map, List.getElem?_range]
    by_cases hk : k < 4
    · have hk' : k = 0 ∨ k = 1 ∨ k = 2 ∨ k = 3 := by omega
      rcases hk' with rfl | rfl | rfl | rfl <;> simp <;> omega
    · have hnone : (List.range 4)[k]? = none :=
        List.getElem?_eq_none (by simp; omega)
      simp [hk, hnone]
  · intro i hi
    have h0 : ¬ position = i := by omega
    have h1 : ¬ position + 1 = i := by omega
    have h2 : ¬ position + 2 = i := by omega
    have h3 : ¬ position + 3 = i := by omega
    simp [Packet.raw_bytes, List.getElem?_set, h0, h1, h2, h3]
  · simp [Packet.size]

/-- C11 on the spec's scenario 2: a placeholder u32 0 and the string "hi"
give `00 00 00 00 68 69 00`; `UpdateUInt32(0, 0x11223344)` gives
`44 33 22 11 68 69 00`. -/
theorem C11_update_witness :
    0 + 4 ≤ ((Packet.new.EncodeUInt32 0).EncodeString [0x68, 0x69]).size
      ∧ ((Packet.new.EncodeUInt32 0).EncodeString [0x68, 0x69]).raw_bytes
          = [0, 0, 0, 0, 0x68, 0x69, 0]
      ∧ (∃ q, ((Packet.new.EncodeUInt32 0).EncodeString [0x68, 0x69]).UpdateUInt32 0 0x11223344
            = some q
          ∧ (q.raw_bytes.drop 0).take 4 = littleEndian 4 0x11223344
          ∧ (∀ i, i < 0 ∨ 0 + 4 ≤ i → q.raw_bytes.get? i
              = ((Packet.new.EncodeUInt32 0).EncodeString [0x68, 0x69]).raw_bytes.get? i)
          ∧ q.size = ((Packet.new.EncodeUInt32 0).EncodeString [0x68, 0x69]).size)
      ∧ (((Packet.new.EncodeUInt32 0).EncodeString [0x68, 0x69]).UpdateUInt32 0
            0x11223344).map Packet.raw_bytes
          = some [0x44, 0x33, 0x22, 0x11, 0x68, 0x69, 0] :=
  ⟨by decide, by decide,
    C11_update_is_local ((Packet.new.EncodeUInt32 0).EncodeString [0x68, 0x69]) 0 0x11223344
      (by decide),
    by decide⟩

/-- C12: for an offset `k ≤ size()`, after `Reset(k)` the size is `k` and the
`k` bytes are the first `k` bytes the packet held. -/
theorem C12_reset_keeps_the_first_bytes (p : Packet) (k : Nat) (h : k ≤ p.size) :
    (p.Reset k).size = k
      ∧ (p.Reset k).raw_bytes = p.raw_bytes.take k
      ∧ ∀ i, i < k → (p.Reset k).raw_bytes.get? i = p.raw_bytes.get? i := by
  unfold Packet.size at h
  refine ⟨?_, rfl, ?_⟩
  · simp [Packet.Reset, Packet.size, h]
  · intro i hi
    simp [Packet.Reset, Packet.raw_bytes, List.getElem?_take, hi]

/-- C12 on the packet `11 22 33 44`: `Reset(1)` leaves the byte `11`. -/
theorem C12_reset_witness :
    1 ≤ (Packet.new.EncodeUInt32 0x44332211).size
      ∧ ((Packet.new.EncodeUInt32 0x44332211).Reset 1).size = 1
      ∧ ((Packet.new.EncodeUInt32 0x44332211).Reset 1).raw_bytes = [0x11] :=
  ⟨by decide,
    (C12_reset_keeps_the_first_bytes (Packet.new.EncodeUInt32 0x44332211) 1 (by decide)).1,
    by decide⟩

/-- C13: for a string of bytes without a zero byte, `EncodeString` adds
`len + 1` to `size()`; the bytes held before stay, the next `len` bytes are
the bytes of the string and the last byte is zero. -/
theorem C13_string_is_zero_terminated (p : Packet) (str : List Nat)
    (hbytes : ∀ b ∈ str, b < 256) (_hzero : ∀ b ∈ str, b ≠ 0) :
    (p.EncodeString str).size = p.size + (str.length + 1)
      ∧ (p.EncodeString str).raw_bytes = p.raw_bytes ++ str ++ [0]
      ∧ (p.EncodeString str).raw_bytes.take p.size = p.raw_bytes
      ∧ ((p.EncodeString str).raw_bytes.drop p.size).take str.length = str
      ∧ (p.EncodeString str).raw_bytes.get? (p.size + str.length) = some 0 := by
  have hmap : (str.take str.length).map (fun b => b % 2 ^ 8) = str := by
    rw [List.take_length]
    conv_rhs => rw [← List.map_id str]
    apply List.map_congr_left
    intro b hb
    have := hbytes b hb
    simp only [id]
    omega
  have hraw : (p.EncodeString str).raw_bytes = p.raw_bytes ++ str ++ [0] := by
    simp only [Packet.EncodeString, Packet.EncodeBytes, Packet.EncodeUInt8, Packet.raw_bytes,
      hmap]
    simp
  refine ⟨?_, hraw, ?_, ?_, ?_⟩
  · have hlen := congrArg List.length hraw
    simp only [Packet.raw_bytes, List.length_append, List.length_singleton] at hlen
    unfold Packet.size
    omega
  · rw [hraw]
    simp [Packet.size, Packet.raw_bytes, List.append_assoc]
  · rw [hraw]
    simp [Packet.size, Packet.raw_bytes, List.append_assoc]
  · rw [hraw, List.get?_eq_getElem?]
    have hlen : p.size + str.length = (p.raw_bytes ++ str).length := by
      simp [Packet.size, Packet.raw_bytes]
    rw [hlen, List.getElem?_append_right (le_refl _)]
    simp

/-- C13 on the string "hi" after one byte: the bytes `68 69 00` are added. -/
theorem C13_string_witness :
    (∀ b ∈ [0x68, 0x69], b < 256) ∧ (∀ b ∈ [0x68, 0x69], b ≠ 0)
      ∧ ((Packet.new.EncodeUInt8 0x7F).EncodeString [0x68, 0x69]).size = 1 + (2 + 1)
      ∧ ((Packet.new.EncodeUInt8 0x7F).EncodeString [0x68, 0x69]).raw_bytes
          = [0x7F, 0x68, 0x69, 0] :=
  ⟨by decide, by decide,
    (C13_string_is_zero_terminated (Packet.new.EncodeUInt8 0x7F) [0x68, 0x69] (by decide)
      (by decide)).1,
    by decide⟩

end converter

namespace converter

/-! ## Event comparison, truncation and lookup -/

theorem fieldsEq_iff_positions (as bs : List Field) :
    fieldsEq as bs = true ↔
      as.length = bs.length
        ∧ ∀ (i : Nat) (ha : i < as.length) (hb : i < bs.length),
            (as.get ⟨i, ha⟩).operatorEq (bs.get ⟨i, hb⟩) = true := by
  induction as generalizing bs with
  | nil =>
    cases bs with
    | nil => simp [fieldsEq]
    | cons b bs => simp [fieldsEq]
  | cons a as ih =>
    cases bs with
    | nil => simp [fieldsEq]
    | cons b bs =>
      simp only [fieldsEq, Bool.and_eq_true, ih bs, List.length_cons, Nat.add_right_cancel_iff]
      constructor
      · rintro ⟨hab, hlen, hrest⟩
        refine ⟨hlen, ?_⟩
        intro i ha hb
        cases i with
        | zero => simpa using hab
        | succ i =>
          simpa using hrest i (by simpa using ha) (by simpa using hb)
      · rintro ⟨hlen, hall⟩
        refine ⟨by simpa using hall 0 (by simp) (by simp), hlen, ?_⟩
        intro i ha hb
        simpa using hall (i + 1) (by simpa using ha) (by simpa using hb)

theorem Event.operatorEq_trans (a b c : Event) (hab : a.operatorEq b = true)
    (hbc : b.operatorEq c = true) : a.operatorEq c = true := by
  rw [Event.operatorEq_iff_members] at hab hbc ⊢
  exact ⟨hab.1.trans hbc.1, hab.2.1.trans hbc.2.1, hab.2.2.1.trans hbc.2.2.1,
    hab.2.2.2.1.trans hbc.2.2.2.1, hab.2.2.2.2.trans hbc.2.2.2.2⟩

/-- C14: `a == b` holds iff guid, opcode, version and event id are equal and
the field sequences have the same length and equal fields at every position;
two fields are equal iff type, name, size, field_size and parent are equal;
`==` is reflexive, symmetric and transitive, and events that differ in a
descriptor member or at a field position compare unequal. -/
theorem C14_event_equality_is_structural (a b c : Event) (f g : Field) :
    (a.operatorEq b = true ↔
        a.guid = b.guid ∧ a.opcode = b.opcode ∧ a.version = b.version
          ∧ a.event_id = b.event_id ∧ a.fields.length = b.fields.length
          ∧ ∀ (i : Nat) (ha : i < a.fields.length) (hb : i < b.fields.length),
              (a.fields.get ⟨i, ha⟩).operatorEq (b.fields.get ⟨i, hb⟩) = true)
      ∧ (f.operatorEq g = true ↔
          f.type = g.type ∧ f.name = g.name ∧ f.size = g.size
            ∧ f.field_size = g.field_size ∧ f.parent = g.parent)
      ∧ a.operatorEq a = true
      ∧ (a.operatorEq b = true → b.operatorEq a = true)
      ∧ (a.operatorEq b = true → b.operatorEq c = true → a.operatorEq c = true)
      ∧ ((a.guid ≠ b.guid ∨ a.opcode ≠ b.opcode ∨ a.version ≠ b.version
            ∨ a.event_id ≠ b.event_id ∨ ∃ i, a.fields.get? i ≠ b.fields.get? i) →
          a.operatorEq b = false) := by
  refine ⟨?_, ?_, Event.operatorEq_refl a, ?_, Event.operatorEq_trans a b c, ?_⟩
  · simp [Event.operatorEq, fieldsEq_iff_positions, and_assoc]
  · simp [Field.operatorEq, and_assoc]
  · intro h
    rw [← Event.operatorEq_symm]
    exact h
  · intro hdiff
    cases h : a.operatorEq b
    · rfl
    · rw [Event.operatorEq_iff_members] at h
      obtain ⟨h1, h2, h3, h4, h5⟩ := h
      rcases hdiff with hd | hd | hd | hd | ⟨i, hd⟩
      · exact absurd h1 hd
      · exact absurd h2 hd
      · exact absurd h3 hd
      · exact absurd h4 hd
      · rw [h5] at hd
        exact absurd rfl hd

/-- C14 on the events `E1` and `E2` of scenario 4, which differ at field
position 0: they compare unequal. -/
theorem C14_event_equality_witness : scenarioE1.operatorEq scenarioE2 = false :=
  (C14_event_equality_is_structural scenarioE1 scenarioE2 scenarioE1 Field.default
    Field.default).2.2.2.2.2 (Or.inr (Or.inr (Or.inr (Or.inr ⟨0, by decide⟩))))

theorem Event.ResetTo_within (e : Event) (offset : Nat) (h : offset ≤ e.size) :
    (e.ResetTo offset).fields = e.fields.take offset
      ∧ (e.ResetTo offset).fields <+: e.fields := by
  unfold Event.size at h
  have h0 : offset - e.fields.length = 0 := by omega
  have hf : (e.ResetTo offset).fields = e.fields.take offset := by
    simp [Event.ResetTo, h0]
  exact ⟨hf, by rw [hf]; exact List.take_prefix offset e.fields⟩

/-- C15 fails on the code past the end: on an event without field,
`Reset(1)` (`fields_.resize(1)`) leaves the one field `Field()` of type
`INVALID`, which is no prefix of the empty field sequence; and `Reset()`
leaves no field. -/
theorem C15_reset_past_the_end_adds_fields :
    (Event.new.ResetTo 1).fields = [Field.default]
      ∧ Field.default.type = FieldType.INVALID
      ∧ ¬ ((Event.new.ResetTo 1).fields <+: Event.new.fields)
      ∧ (scenarioE.Reset).fields = [] := by
  refine ⟨by decide, rfl, ?_, rfl⟩
  intro hpre
  have hlen := hpre.length_le
  revert hlen
  decide

/-- C16: `GetEventWithId(id)` fails out of range for every `id ≥ size()`, on
an empty `Metadata` for every id, and returns the event stored at position
`id` for every `id < size()`. -/
theorem C16_lookup_succeeds_iff_in_range (m : Metadata) (id : Nat) :
    (m.size ≤ id → m.GetEventWithId id = none)
      ∧ Metadata.new.GetEventWithId id = none
      ∧ (∀ h : id < m.events_.length, m.GetEventWithId id = some (m.events_.get ⟨id, h⟩))
      ∧ ((m.GetEventWithId id).isSome = true ↔ id < m.size) := by
  unfold Metadata.size
  refine ⟨?_, ?_, ?_, ?_⟩
  · intro h
    have : ¬ id < m.events_.length := by omega
    simp [Metadata.GetEventWithId, this]
  · simp [Metadata.GetEventWithId, Metadata.new]
  · intro h
    simp [Metadata.GetEventWithId, h, List.getElem?_eq_getElem]
  · by_cases h : id < m.events_.length
    · simp [Metadata.GetEventWithId, h, List.getElem?_eq_getElem]
    · simp [Metadata.GetEventWithId, h]

/-- C16 on the dictionary `[E1, E2]`: id 1 gives `E2`, id 2 is out of range. -/
theorem C16_lookup_witness :
    (Metadata.new.GetIdForEvents [scenarioE1, scenarioE2]).2.GetEventWithId 2 = none
      ∧ (Metadata.new.GetIdForEvents [scenarioE1, scenarioE2]).2.GetEventWithId 1
          = some scenarioE2 :=
  ⟨(C16_lookup_succeeds_iff_in_range (Metadata.new.GetIdForEvents [scenarioE1, scenarioE2]).2
      2).1 (by decide),
    by decide⟩

end converter

namespace converter

/-! ## The stream writer -/

theorem openFiles_append (log more : List OsCall) :
    openFiles (log ++ more) = more.foldl openFilesStep (openFiles log) := by
  simp [openFiles, List.foldl_append]

/-- The files the log says are open are the file of `stream_`, if any. -/
theorem ProducerCall.run_openFiles (this : CTFProducer) (call : ProducerCall)
    (h : openFiles this.os = this.stream_.file.toList) :
    openFiles (call.run this).os = (call.run this).stream_.file.toList := by
  cases call with
  | OpenFolder folder createOk =>
    simp only [ProducerCall.run, CTFProducer.OpenFolder]
    split
    · exact h
    · split <;> simp [openFiles_append, openFilesStep, h]
  | OpenStream filename openOk =>
    simp only [ProducerCall.run, CTFProducer.OpenStream, OfStream.open]
    cases hf : this.stream_.file with
    | none =>
      rw [hf] at h
      cases openOk <;> simp [openFiles_append, openFilesStep, h, hf]
    | some path =>
      rw [hf] at h
      simp [h, hf]
  | Write raw length writeOk =>
    simp only [ProducerCall.run, CTFProducer.Write, OfStream.write]
    split
    · exact h
    · split
      · simpa using h
      · cases hf : this.stream_.file with
        | none => simpa [hf] using h
        | some path => simp [openFiles_append, openFilesStep, h, hf]
  | CloseStream closeOk =>
    simp only [ProducerCall.run, CTFProducer.CloseStream, OfStream.close]
    split
    · exact h
    · cases hf : this.stream_.file with
      | none =>
        rw [hf] at h
        simp [OfStream.fail, h, hf]
      | some path =>
        rw [hf] at h
        split <;> simp [openFiles_append, openFilesStep, h]

theorem runCalls_openFiles (this : CTFProducer) (calls : List ProducerCall)
    (h : openFiles this.os = this.stream_.file.toList) :
    openFiles (this.runCalls calls).os = (this.runCalls calls).stream_.file.toList := by
  induction calls generalizing this with
  | nil => simpa [CTFProducer.runCalls] using h
  | cons call rest ih =>
    have hstep : this.runCalls (call :: rest) = (call.run this).runCalls rest := by
      simp [CTFProducer.runCalls]
    rw [hstep]
    exact ih _ (ProducerCall.run_openFiles this call h)

/-- Once set, `folder_` is never changed. -/
theorem ProducerCall.run_folder (this : CTFProducer) (call : ProducerCall)
    (h : this.folder_ ≠ "") : (call.run this).folder_ = this.folder_ := by
  cases call with
  | OpenFolder folder createOk => simp [ProducerCall.run, CTFProducer.OpenFolder, h]
  | OpenStream filename openOk => simp [ProducerCall.run, CTFProducer.OpenStream]
  | Write raw length writeOk =>
    simp only [ProducerCall.run, CTFProducer.Write]
    split <;> rfl
  | CloseStream closeOk =>
    simp only [ProducerCall.run, CTFProducer.CloseStream]
    split
    · rfl
    · split <;> rfl

theorem runCalls_folder (this : CTFProducer) (calls : List ProducerCall)
    (h : this.folder_ ≠ "") : (this.runCalls calls).folder_ = this.folder_ := by
  induction calls generalizing this with
  | nil => simp [CTFProducer.runCalls]
  | cons call rest ih =>
    have hstep : this.runCalls (call :: rest) = (call.run this).runCalls rest := by
      simp [CTFProducer.runCalls]
    have hcall := ProducerCall.run_folder this call h
    rw [hstep, ih _ (by rw [hcall]; exact h), hcall]

/-- C17: `OpenFolder(path)` returns false when `folder_` is already set or
`path` is empty, and then changes nothing and makes no call to the system;
otherwise it stores the path, calls `CreateDirectory` once and returns its
answer. -/
theorem C17_open_folder_guard (this : CTFProducer) (folder : String) (createOk : Bool) :
    (this.folder_ ≠ "" ∨ folder = "" →
        (this.OpenFolder folder createOk).1 = false
          ∧ (this.OpenFolder folder createOk).2.folder_ = this.folder_
          ∧ (this.OpenFolder folder createOk).2.os = this.os
          ∧ (this.OpenFolder folder createOk).2 = this)
      ∧ (this.folder_ = "" → folder ≠ "" →
          ((this.OpenFolder folder createOk).1 = true ↔ createOk = true)
            ∧ (this.OpenFolder folder createOk).2.folder_ = folder
            ∧ (this.OpenFolder folder createOk).2.os
                = this.os ++ [OsCall.CreateDirectory folder createOk]) := by
  constructor
  · intro h
    simp [CTFProducer.OpenFolder, h]
  · intro h1 h2
    cases createOk <;> simp [CTFProducer.OpenFolder, h1, h2]

/-- C17 on a fresh producer: the empty path is refused without a call to the
system, and `"ctf"` is accepted when `CreateDirectory` succeeds. -/
theorem C17_open_folder_witness :
    (CTFProducer.new.OpenFolder "" true).1 = false
      ∧ (CTFProducer.new.OpenFolder "" true).2.os = []
      ∧ ((CTFProducer.new.OpenFolder "ctf" true).1 = true ↔ true = true) :=
  ⟨((C17_open_folder_guard CTFProducer.new "" true).1 (Or.inr rfl)).1,
    ((C17_open_folder_guard CTFProducer.new "" true).1 (Or.inr rfl)).2.2.1,
    ((C17_open_folder_guard CTFProducer.new "ctf" true).2 rfl (by decide)).1⟩

theorem Write_returns_true_when_open (this : CTFProducer) (raw : List Nat) (length : Nat)
    (writeOk : Bool) (h : this.stream_.is_open = true) :
    (this.Write raw length writeOk).1 = true := by
  simp [CTFProducer.Write, h]

/-- C18 fails on the code: on a producer with an open stream, a `Write` whose
write to the stream fails returns true (the stream is left with its failure
flag set); `Write` returns false only when no stream is open. -/
theorem C18_failed_write_returns_true :
    (CTFProducer.new.runCalls
        [ProducerCall.OpenFolder "ctf" true, ProducerCall.OpenStream "stream" true]).stream_.is_open
        = true
      ∧ ((CTFProducer.new.runCalls
          [ProducerCall.OpenFolder "ctf" true, ProducerCall.OpenStream "stream" true]).Write
            [1, 2, 3] 3 false).1 = true
      ∧ ((CTFProducer.new.runCalls
          [ProducerCall.OpenFolder "ctf" true, ProducerCall.OpenStream "stream" true]).Write
            [1, 2, 3] 3 false).2.stream_.fail = true
      ∧ (CTFProducer.new.Write [1, 2, 3] 3 true).1 = false := by
  decide

/-- C19 as stated fails: on a fresh producer, where no folder was opened,
`OpenStream("stream")` opens the file `\stream` when the system lets it. -/
theorem C19_stream_opens_without_folder :
    (CTFProducer.new.runCalls [ProducerCall.OpenStream "stream" true]).stream_.is_open = true
      ∧ (CTFProducer.new.runCalls [ProducerCall.OpenStream "stream" true]).folder_ = ""
      ∧ (CTFProducer.new.runCalls [ProducerCall.OpenStream "stream" true]).os
          = [OsCall.OpenFile "\\stream" true] := by
  decide

/-- C19 amended: after every sequence of `OpenFolder` / `OpenStream` / `Write`
/ `CloseStream` calls on a fresh producer at most one file is held open, the
one of `stream_`; and when the sequence starts with `OpenFolder` of a path
that is not empty, that path is the folder from then on, so that no stream is
open without a folder. -/
theorem C19_at_most_one_stream_open (calls : List ProducerCall) :
    (openFiles (CTFProducer.new.runCalls calls).os).length ≤ 1
      ∧ openFiles (CTFProducer.new.runCalls calls).os
          = (CTFProducer.new.runCalls calls).stream_.file.toList
      ∧ ∀ folder createOk rest, calls = ProducerCall.OpenFolder folder createOk :: rest →
          folder ≠ "" →
          (CTFProducer.new.runCalls calls).folder_ = folder
            ∧ (CTFProducer.new.runCalls calls).folder_ ≠ "" := by
  have hinv := runCalls_openFiles CTFProducer.new calls (by simp [openFiles, CTFProducer.new])
  refine ⟨?_, hinv, ?_⟩
  · rw [hinv]
    cases (CTFProducer.new.runCalls calls).stream_.file <;> simp
  · intro folder createOk rest hcalls hfolder
    subst hcalls
    have hstep : CTFProducer.new.runCalls (ProducerCall.OpenFolder folder createOk :: rest)
        = (CTFProducer.new.OpenFolder folder createOk).2.runCalls rest := by
      simp [CTFProducer.runCalls, ProducerCall.run]
    have hfirst : (CTFProducer.new.OpenFolder folder createOk).2.folder_ = folder := by
      cases createOk <;> simp [CTFProducer.OpenFolder, CTFProducer.new, hfolder]
    have hkeep := runCalls_folder (CTFProducer.new.OpenFolder folder createOk).2 rest
      (by rw [hfirst]; exact hfolder)
    rw [hstep, hkeep, hfirst]
    exact ⟨rfl, hfolder⟩

/-- C19 amended, on the calls of a run of the converter: the folder `ctf`,
the stream `stream`, a second `OpenStream` while it is open, a close. -/
theorem C19_one_stream_witness :
    openFiles (CTFProducer.new.runCalls
        [ProducerCall.OpenFolder "ctf" true, ProducerCall.OpenStream "stream" true,
          ProducerCall.OpenStream "metadata" true]).os = ["ctf\\stream"]
      ∧ (CTFProducer.new.runCalls
        [ProducerCall.OpenFolder "ctf" true, ProducerCall.OpenStream "stream" true,
          ProducerCall.OpenStream "metadata" true]).folder_ = "ctf" :=
  ⟨by decide,
    ((C19_at_most_one_stream_open
      [ProducerCall.OpenFolder "ctf" true, ProducerCall.OpenStream "stream" true,
        ProducerCall.OpenStream "metadata" true]).2.2 "ctf" true _ rfl (by decide)).1⟩

/-- C20 as stated fails: after a `Write` that failed, `CloseStream` returns
false although the close itself raises no failure. -/
theorem C20_close_reports_earlier_failure :
    ((CTFProducer.new.runCalls
        [ProducerCall.OpenFolder "ctf" true, ProducerCall.OpenStream "stream" true,
          ProducerCall.Write [1, 2, 3] 3 false]).CloseStream true).1 = false
      ∧ (CTFProducer.new.runCalls
        [ProducerCall.OpenFolder "ctf" true, ProducerCall.OpenStream "stream" true,
          ProducerCall.Write [1, 2, 3] 3 false]).stream_.is_open = true := by
  decide

/-- C20 amended: `CloseStream` returns false and changes nothing when no
stream is open; when a stream is open it closes it and returns true iff the
close raises no failure and the stream had no failure flag set before; a
second `CloseStream` right after a first one returns false. -/
theorem C20_close_stream_not_idempotent (this : CTFProducer) (closeOk again : Bool) :
    (this.stream_.is_open = false → this.CloseStream closeOk = (false, this))
      ∧ (this.stream_.is_open = true →
          (this.CloseStream closeOk).2.stream_.is_open = false
            ∧ ((this.CloseStream closeOk).1 = true
                ↔ closeOk = true ∧ this.stream_.fail = false))
      ∧ ((this.CloseStream closeOk).2.CloseStream again).1 = false := by
  have hopen : this.stream_.is_open = true →
      (this.CloseStream closeOk).2.stream_.is_open = false
        ∧ ((this.CloseStream closeOk).1 = true
            ↔ closeOk = true ∧ this.stream_.fail = false) := by
    intro h
    obtain ⟨path, hpath⟩ := Option.isSome_iff_exists.mp h
    cases closeOk <;> cases hfail : this.stream_.failed <;>
      simp [CTFProducer.CloseStream, OfStream.close, OfStream.is_open, OfStream.fail, hpath,
        hfail]
  refine ⟨?_, hopen, ?_⟩
  · intro h
    simp [CTFProducer.CloseStream, h]
  · have hclosed : (this.CloseStream closeOk).2.stream_.is_open = false := by
      cases h : this.stream_.is_open
      · simp [CTFProducer.CloseStream, h]
      · exact (hopen h).1
    generalize (this.CloseStream closeOk).2 = next at hclosed
    simp [CTFProducer.CloseStream, hclosed]

/-- C20 amended, on an open stream without failure: the first `CloseStream`
returns true, the second false. -/
theorem C20_close_stream_witness :
    ((CTFProducer.new.runCalls
        [ProducerCall.OpenFolder "ctf" true, ProducerCall.OpenStream "stream" true]).CloseStream
          true).1 = true
      ∧ (((CTFProducer.new.runCalls
        [ProducerCall.OpenFolder "ctf" true, ProducerCall.OpenStream "stream" true]).CloseStream
          true).2.CloseStream true).1 = false :=
  ⟨by decide,
    (C20_close_stream_not_idempotent
      (CTFProducer.new.runCalls
        [ProducerCall.OpenFolder "ctf" true, ProducerCall.OpenStream "stream" true])
      true true).2.2⟩

end converter

namespace dissector

open converter

/-! ## What the rollback leaves of the event -/

end dissector

namespace converter

/-! ## The stored folder -/

/-- C24: after `OpenFolder` with a path that is not empty on a fresh producer
the path is stored, also when `CreateDirectory` fails and the call returns
false; after any further calls the folder is still that path, every other
`OpenFolder` returns false and changes nothing, and `OpenStream` on a closed
stream opens the file `folder\filename`. -/
theorem C24_open_folder_takes_effect_once (folder : String) (createOk : Bool)
    (calls : List ProducerCall) (path : String) (ok : Bool) (filename : String)
    (openOk : Bool) (hfolder : folder ≠ "") :
    ((CTFProducer.new.OpenFolder folder createOk).1 = true ↔ createOk = true)
      ∧ (CTFProducer.new.OpenFolder folder createOk).2.folder_ = folder
      ∧ ((CTFProducer.new.OpenFolder folder createOk).2.runCalls calls).folder_ = folder
      ∧ (((CTFProducer.new.OpenFolder folder createOk).2.runCalls calls).OpenFolder path ok).1
          = false
      ∧ (((CTFProducer.new.OpenFolder folder createOk).2.runCalls calls).OpenFolder path ok).2
          = (CTFProducer.new.OpenFolder folder createOk).2.runCalls calls
      ∧ (((CTFProducer.new.OpenFolder folder createOk).2.runCalls calls).stream_.is_open
            = false →
          (((CTFProducer.new.OpenFolder folder createOk).2.runCalls calls).OpenStream filename
              openOk).2.os
            = ((CTFProducer.new.OpenFolder folder createOk).2.runCalls calls).os
                ++ [OsCall.OpenFile (folder ++ "\\" ++ filename) openOk]) := by
  have hfirst : (CTFProducer.new.OpenFolder folder createOk).2.folder_ = folder := by
    cases createOk <;> simp [CTFProducer.OpenFolder, CTFProducer.new, hfolder]
  have hkeep : ((CTFProducer.new.OpenFolder folder createOk).2.runCalls calls).folder_
      = folder := by
    rw [runCalls_folder _ calls (by rw [hfirst]; exact hfolder), hfirst]
  refine ⟨?_, hfirst, hkeep, ?_⟩
  · cases createOk <;> simp [CTFProducer.OpenFolder, CTFProducer.new, hfolder]
  · generalize (CTFProducer.new.OpenFolder folder createOk).2.runCalls calls = p at hkeep
    refine ⟨?_, ?_, ?_⟩
    · simp [CTFProducer.OpenFolder, hkeep, hfolder]
    · simp [CTFProducer.OpenFolder, hkeep, hfolder]
    · intro hclosed
      have hnone : p.stream_.file = none := by
        simpa [OfStream.is_open] using hclosed
      cases openOk <;> simp [CTFProducer.OpenStream, OfStream.open, hnone, hkeep]

/-- C24 with the folder `ctf` whose creation fails: the call returns false,
`OpenFolder("other")` after an `OpenStream` returns false, and the stream was
opened on `ctf\stream`. -/
theorem C24_open_folder_witness :
    "ctf" ≠ ""
      ∧ (CTFProducer.new.OpenFolder "ctf" false).1 = false
      ∧ (((CTFProducer.new.OpenFolder "ctf" false).2.runCalls
          [ProducerCall.OpenStream "stream" true]).OpenFolder "other" true).1 = false
      ∧ ((CTFProducer.new.OpenFolder "ctf" false).2.runCalls
          [ProducerCall.OpenStream "stream" true]).os
        = [OsCall.CreateDirectory "ctf" false, OsCall.OpenFile "ctf\\stream" true] :=
  ⟨by decide, by decide,
    (C24_open_folder_takes_effect_once "ctf" false [ProducerCall.OpenStream "stream" true]
      "other" true "x" true (by decide)).2.2.2.1,
    by decide⟩

end converter

namespace etw2ctf

open converter

/-! ## The driver -/

theorem runCalls_concat (this : CTFProducer) (calls : List ProducerCall)
    (call : ProducerCall) : this.runCalls (calls ++ [call]) = call.run (this.runCalls calls) := by
  simp [CTFProducer.runCalls, List.foldl_append]

theorem CloseStream_leaves_closed (this : CTFProducer) (closeOk : Bool) :
    (this.CloseStream closeOk).2.stream_.is_open = false := by
  cases hf : this.stream_.file with
  | none => simp [CTFProducer.CloseStream, OfStream.is_open, hf]
  | some path =>
    cases closeOk <;> cases hfail : this.stream_.failed <;>
      simp [CTFProducer.CloseStream, OfStream.close, OfStream.is_open, OfStream.fail, hf, hfail]

theorem OpenStream_on_closed (this : CTFProducer) (filename : String) (openOk : Bool)
    (h : this.stream_.is_open = false) :
    (this.OpenStream filename openOk).2.stream_.is_open = openOk := by
  have hnone : this.stream_.file = none := by simpa [OfStream.is_open] using h
  cases openOk <;> simp [CTFProducer.OpenStream, OfStream.open, OfStream.is_open, hnone]

theorem Write_returns_is_open (this : CTFProducer) (raw : List Nat) (length : Nat)
    (writeOk : Bool) : (this.Write raw length writeOk).1 = this.stream_.is_open := by
  cases h : this.stream_.is_open <;> simp [CTFProducer.Write, h]

/-- One more call that is no `OpenStream` keeps the `assert`s of the log. -/
theorem asserted_after_other (d next : Driver) (call : ProducerCall)
    (hcalls : next.calls = d.calls ++ [call])
    (hcall : ∀ filename openOk, call ≠ ProducerCall.OpenStream filename openOk)
    (h : d.OpenStreamsAsserted) : next.OpenStreamsAsserted := by
  intro before filename openOk after heq
  rw [hcalls] at heq
  rcases List.eq_nil_or_concat after with rfl | ⟨front, last, rfl⟩
  · have := (List.append_inj' heq (by simp)).2
    simp only [List.cons.injEq, and_true] at this
    exact absurd this (hcall filename openOk)
  · have hsplit : d.calls ++ [call]
        = (before ++ ProducerCall.OpenStream filename openOk :: front) ++ [last] := by
      rw [heq]; simp
    exact h before filename openOk front (List.append_inj' hsplit (by simp)).1

/-- An `OpenStream` call on a producer with no stream open keeps the
`assert`s of the log. -/
theorem asserted_after_open (d next : Driver) (name : String) (ok : Bool)
    (hcalls : next.calls = d.calls ++ [ProducerCall.OpenStream name ok])
    (hcons : d.Consistent) (hclosed : d.producer.stream_.is_open = false)
    (h : d.OpenStreamsAsserted) : next.OpenStreamsAsserted := by
  intro before filename openOk after heq
  rw [hcalls] at heq
  rcases List.eq_nil_or_concat after with rfl | ⟨front, last, rfl⟩
  · have hbefore := (List.append_inj' heq (by simp)).1
    unfold CTFProducer.OpenStreamAsserted
    rw [← hbefore, ← hcons]
    exact hclosed
  · have hsplit : d.calls ++ [ProducerCall.OpenStream name ok]
        = (before ++ ProducerCall.OpenStream filename openOk :: front) ++ [last] := by
      rw [heq]; simp
    exact h before filename openOk front (List.append_inj' hsplit (by simp)).1

theorem Driver.OpenFolder_keeps (d : Driver) (folder : String) (createOk : Bool)
    (h : d.Consistent ∧ d.OpenStreamsAsserted) :
    ((d.OpenFolder folder createOk).2.Consistent
        ∧ (d.OpenFolder folder createOk).2.OpenStreamsAsserted)
      ∧ (d.OpenFolder folder createOk).2.producer.stream_ = d.producer.stream_ := by
  refine ⟨⟨?_, ?_⟩, ?_⟩
  · unfold Driver.Consistent
    simp only [Driver.OpenFolder]
    rw [runCalls_concat, ← h.1]
    rfl
  · exact asserted_after_other d _ _ rfl (by intro _ _ hc; cases hc) h.2
  · simp only [Driver.OpenFolder, CTFProducer.OpenFolder]
    split
    · rfl
    · split <;> rfl

theorem Driver.Write_keeps (d : Driver) (raw : List Nat) (length : Nat) (writeOk : Bool)
    (h : d.Consistent ∧ d.OpenStreamsAsserted) :
    (d.Write raw length writeOk).2.Consistent
      ∧ (d.Write raw length writeOk).2.OpenStreamsAsserted := by
  refine ⟨?_, ?_⟩
  · unfold Driver.Consistent
    simp only [Driver.Write]
    rw [runCalls_concat, ← h.1]
    rfl
  · exact asserted_after_other d _ _ rfl (by intro _ _ hc; cases hc) h.2

theorem Driver.CloseStream_keeps (d : Driver) (closeOk : Bool)
    (h : d.Consistent ∧ d.OpenStreamsAsserted) :
    ((d.CloseStream closeOk).2.Consistent ∧ (d.CloseStream closeOk).2.OpenStreamsAsserted)
      ∧ (d.CloseStream closeOk).2.producer.stream_.is_open = false := by
  refine ⟨⟨?_, ?_⟩, CloseStream_leaves_closed d.producer closeOk⟩
  · unfold Driver.Consistent
    simp only [Driver.CloseStream]
    rw [runCalls_concat, ← h.1]
    rfl
  · exact asserted_after_other d _ _ rfl (by intro _ _ hc; cases hc) h.2

theorem Driver.OpenStream_keeps (d : Driver) (filename : String) (openOk : Bool)
    (h : d.Consistent ∧ d.OpenStreamsAsserted)
    (hclosed : d.producer.stream_.is_open = false) :
    (d.OpenStream filename openOk).2.Consistent
      ∧ (d.OpenStream filename openOk).2.OpenStreamsAsserted := by
  refine ⟨?_, ?_⟩
  · unfold Driver.Consistent
    simp only [Driver.OpenStream]
    rw [runCalls_concat, ← h.1]
    rfl
  · exact asserted_after_open d _ filename openOk rfl h.1 hclosed h.2

theorem ProcessEvent_keeps (d : Driver) (pevent : EventRecord)
    (h : d.Consistent ∧ d.OpenStreamsAsserted) :
    (ProcessEvent d pevent).Consistent ∧ (ProcessEvent d pevent).OpenStreamsAsserted := by
  unfold ProcessEvent
  split
  · exact h
  · exact Driver.Write_keeps d _ _ _ h

theorem ProcessBuffer_keeps (d : Driver) (ptrace : BufferRecord)
    (h : d.Consistent ∧ d.OpenStreamsAsserted) :
    (ProcessBuffer d ptrace).2.Consistent ∧ (ProcessBuffer d ptrace).2.OpenStreamsAsserted := by
  have hclose := Driver.CloseStream_keeps d ptrace.closeOk h
  have hopen := Driver.OpenStream_keeps _ ptrace.stream_name ptrace.openOk hclose.1 hclose.2
  have hwrite := Driver.Write_keeps _ ptrace.header.raw_bytes ptrace.header.size
    ptrace.writeOk hopen
  unfold ProcessBuffer
  simp only
  split
  · exact hclose.1
  · split
    · exact hwrite
    · exact hwrite

theorem ConsumeAllEvents_keeps (d : Driver) (callbacks : List Callback)
    (h : d.Consistent ∧ d.OpenStreamsAsserted) :
    (ConsumeAllEvents d callbacks).Consistent
      ∧ (ConsumeAllEvents d callbacks).OpenStreamsAsserted := by
  induction callbacks generalizing d with
  | nil => simpa [ConsumeAllEvents] using h
  | cons callback rest ih =>
    have hstep : ConsumeAllEvents d (callback :: rest)
        = ConsumeAllEvents (callback.run d) rest := by
      simp [ConsumeAllEvents]
    rw [hstep]
    apply ih
    cases callback with
    | Event pevent => exact ProcessEvent_keeps d pevent h
    | Buffer ptrace => exact ProcessBuffer_keeps d ptrace h

theorem wmain_keeps (run : Run) :
    (wmain run).2.Consistent ∧ (wmain run).2.OpenStreamsAsserted := by
  have h0 : Driver.start.Consistent ∧ Driver.start.OpenStreamsAsserted := by
    refine ⟨by simp [Driver.Consistent, Driver.start, CTFProducer.runCalls], ?_⟩
    intro before filename openOk after heq
    simp [Driver.start] at heq
  have h1 := Driver.OpenFolder_keeps Driver.start "ctf" run.createOk h0
  have hclosed1 : (Driver.start.OpenFolder "ctf" run.createOk).2.producer.stream_.is_open
      = false := by
    rw [h1.2]; rfl
  have h2 := Driver.OpenStream_keeps _ "stream" run.streamOpenOk h1.1 hclosed1
  have h3 := Driver.Write_keeps _ run.header.raw_bytes run.header.size run.headerWriteOk h2
  have h4 := ConsumeAllEvents_keeps _ run.callbacks h3
  have h5 := Driver.CloseStream_keeps _ run.closeOk h4
  have h6 := Driver.OpenStream_keeps _ "metadata" run.metadataOpenOk h5.1 h5.2
  have h7 := Driver.Write_keeps _ run.metadata run.metadata.length run.metadataWriteOk h6
  have h8 := Driver.CloseStream_keeps _ run.finalCloseOk h7
  unfold wmain
  simp only
  split
  · exact h1.1
  · split
    · exact h4
    · split
      · exact h6
      · split
        · exact h7
        · exact h8.1

theorem streamContent_concat (path : String) (log : List OsCall) (call : OsCall) :
    streamContent path (log ++ [call]) = streamContentStep path (streamContent path log) call := by
  simp [streamContent, List.foldl_append]

/-- A write that succeeds on an open stream without failure flag appends the
bytes to the file and leaves the stream as it was. -/
theorem Write_appends (this : CTFProducer) (path : String) (raw : List Nat)
    (hfile : this.stream_.file = some path) (hgood : this.stream_.failed = false) :
    (this.Write raw raw.length true).2.stream_.file = some path
      ∧ (this.Write raw raw.length true).2.stream_.failed = false
      ∧ streamContent path (this.Write raw raw.length true).2.os
          = streamContent path this.os ++ raw := by
  have hopen : this.stream_.is_open = true := by simp [OfStream.is_open, hfile]
  simp only [CTFProducer.Write, hopen, OfStream.write, hgood, hfile, List.take_length]
  refine ⟨by simp [hfile], by simp, ?_⟩
  simp [streamContent_concat, streamContentStep]

theorem ConsumeAllEvents_events_calls (d : Driver) (records : List EventRecord) :
    (ConsumeAllEvents d (records.map Callback.Event)).calls
      = d.calls ++ (records.filter (fun r => r.accepted)).map
          (fun r => ProducerCall.Write r.packet.raw_bytes r.packet.size r.writeOk) := by
  induction records generalizing d with
  | nil => simp [ConsumeAllEvents]
  | cons r rest ih =>
    have hstep : ConsumeAllEvents d ((r :: rest).map Callback.Event)
        = ConsumeAllEvents (ProcessEvent d r) (rest.map Callback.Event) := by
      simp [ConsumeAllEvents, Callback.run]
    rw [hstep, ih]
    cases hacc : r.accepted <;> simp [ProcessEvent, hacc, Driver.Write]

theorem ConsumeAllEvents_events_content (d : Driver) (records : List EventRecord)
    (path : String) (hfile : d.producer.stream_.file = some path)
    (hgood : d.producer.stream_.failed = false)
    (hwrites : ∀ r ∈ records, r.accepted = true → r.writeOk = true) :
    streamContent path (ConsumeAllEvents d (records.map Callback.Event)).producer.os
      = streamContent path d.producer.os
          ++ ((records.filter (fun r => r.accepted)).map (fun r => r.packet.raw_bytes)).flatten := by
  induction records generalizing d with
  | nil => simp [ConsumeAllEvents]
  | cons r rest ih =>
    have hstep : ConsumeAllEvents d ((r :: rest).map Callback.Event)
        = ConsumeAllEvents (ProcessEvent d r) (rest.map Callback.Event) := by
      simp [ConsumeAllEvents, Callback.run]
    have hrest : ∀ x ∈ rest, x.accepted = true → x.writeOk = true :=
      fun x hx => hwrites x (by simp [hx])
    rw [hstep]
    cases hacc : r.accepted
    · have hskip : ProcessEvent d r = d := by simp [ProcessEvent, hacc]
      rw [hskip, ih d hfile hgood hrest]
      simp [hacc]
    · have hok : r.writeOk = true := hwrites r (by simp) hacc
      have hw := Write_appends d.producer path r.packet.raw_bytes hfile hgood
      have hproc : (ProcessEvent d r).producer
          = (d.producer.Write r.packet.raw_bytes r.packet.raw_bytes.length true).2 := by
        simp [ProcessEvent, hacc, Driver.Write, hok, Packet.size, Packet.raw_bytes]
      rw [ih (ProcessEvent d r) (by rw [hproc]; exact hw.1) (by rw [hproc]; exact hw.2.1) hrest,
        hproc, hw.2.2]
      simp [hacc]

/-! ## Claims on the driver -/

/-- C21: a record for which `consumer.ProcessEvent` returns false leaves the
producer untouched; one for which it returns true makes one call
`Write(raw_bytes(), size())` with its packet; over a sequence of event
records the `Write` calls are those of the accepted records in delivery
order, and on an open stream without failure whose writes succeed the file
grows by the concatenation of their packets. -/
theorem C21_skipped_records_not_written (d : Driver) (records : List EventRecord) :
    (∀ r : EventRecord, r.accepted = false → ProcessEvent d r = d)
      ∧ (∀ r : EventRecord, r.accepted = true →
          (ProcessEvent d r).calls
            = d.calls ++ [ProducerCall.Write r.packet.raw_bytes r.packet.size r.writeOk])
      ∧ (ConsumeAllEvents d (records.map Callback.Event)).calls
          = d.calls ++ (records.filter (fun r => r.accepted)).map
              (fun r => ProducerCall.Write r.packet.raw_bytes r.packet.size r.writeOk)
      ∧ (∀ path, d.producer.stream_.file = some path → d.producer.stream_.failed = false →
          (∀ r ∈ records, r.accepted = true → r.writeOk = true) →
          streamContent path (ConsumeAllEvents d (records.map Callback.Event)).producer.os
            = streamContent path d.producer.os
                ++ ((records.filter (fun r => r.accepted)).map
                    (fun r => r.packet.raw_bytes)).flatten) := by
  refine ⟨?_, ?_, ConsumeAllEvents_events_calls d records, ?_⟩
  · intro r hr
    simp [ProcessEvent, hr]
  · intro r hr
    simp [ProcessEvent, hr, Driver.Write]
  · intro path hfile hgood hwrites
    exact ConsumeAllEvents_events_content d records path hfile hgood hwrites

/-- C21 on a stream opened by `ProcessBuffer` and three records, the second
skipped: the file holds the header and the packets of the first and third. -/
theorem C21_skipped_records_witness :
    streamContent "ctf\\buffer0"
        (ConsumeAllEvents (ConsumeAllEvents (wmain exampleRun).2 exampleCallbacks)
          ([{ accepted := true, packet := Packet.new.EncodeUInt8 0x0A, writeOk := true },
            { accepted := false, packet := Packet.new.EncodeUInt8 0x0B, writeOk := true },
            { accepted := true, packet := Packet.new.EncodeUInt8 0x0C, writeOk := true }].map
            Callback.Event)).producer.os
      = streamContent "ctf\\buffer0"
          (ConsumeAllEvents (wmain exampleRun).2 exampleCallbacks).producer.os
          ++ [0x0A, 0x0C] :=
  (C21_skipped_records_not_written (ConsumeAllEvents (wmain exampleRun).2 exampleCallbacks)
    [{ accepted := true, packet := Packet.new.EncodeUInt8 0x0A, writeOk := true },
      { accepted := false, packet := Packet.new.EncodeUInt8 0x0B, writeOk := true },
      { accepted := true, packet := Packet.new.EncodeUInt8 0x0C, writeOk := true }]).2.2.2
    "ctf\\buffer0" (by decide) (by decide) (by decide)

theorem metadata_write_returns (d : Driver) (closeOk openOk : Bool) (raw : List Nat)
    (length : Nat) (writeOk : Bool) :
    (((d.CloseStream closeOk).2.OpenStream "metadata" openOk).2.Write raw length writeOk).1
      = openOk := by
  simp only [Driver.Write, Driver.OpenStream, Driver.CloseStream]
  rw [Write_returns_is_open,
    OpenStream_on_closed _ _ _ (CloseStream_leaves_closed d.producer closeOk)]

/-- The exit code of `wmain` as the code computes it: -1 when the run is not
empty and `ConsumeAllEvents` or `SerializeMetadata` fails or the stream
`metadata` could not be opened, 0 otherwise. -/
theorem wmain_exit_code (run : Run) :
    (wmain run).1
      = if run.empty = false ∧ (run.consumeOk = false ∨ run.serializeOk = false
          ∨ run.metadataOpenOk = false) then -1 else 0 := by
  unfold wmain
  simp only [metadata_write_returns]
  cases run.empty <;> cases run.consumeOk <;> cases run.serializeOk <;>
    cases run.metadataOpenOk <;> simp

/-- C22 fails on the code: in a run where everything succeeds but the write
of the metadata text to the stream `metadata`, `wmain` returns 0; the write
was made and failed. -/
theorem C22_failed_metadata_write_exits_zero :
    (wmain { exampleRun with metadataWriteOk := false }).1 = 0
      ∧ OsCall.WriteFile "ctf\\metadata" [0x2F, 0x2A] false
          ∈ (wmain { exampleRun with metadataWriteOk := false }).2.producer.os
      ∧ (wmain { exampleRun with metadataOpenOk := false }).1 = -1
      ∧ (wmain { exampleRun with consumeOk := false }).1 = -1
      ∧ (wmain { exampleRun with serializeOk := false }).1 = -1
      ∧ (wmain exampleRun).1 = 0 := by
  decide

/-- C25: in every run of `wmain`, with every sequence of callbacks, each
`OpenStream` call is made on a producer with no stream open, where the
producer at a call is what the calls made before it give on a fresh
producer; and the calls of the log give the final producer. -/
theorem C25_open_stream_precondition_holds (run : Run) :
    (∀ before filename openOk after,
        (wmain run).2.calls = before ++ ProducerCall.OpenStream filename openOk :: after →
        (CTFProducer.new.runCalls before).stream_.is_open = false)
      ∧ (wmain run).2.producer = CTFProducer.new.runCalls (wmain run).2.calls :=
  ⟨(wmain_keeps run).2, (wmain_keeps run).1⟩

/-- C25 on a run with a buffer between two events: the log has the three
`OpenStream` calls for `stream`, `buffer0` and `metadata`, and no stream is
open before the one for `buffer0`. -/
theorem C25_open_stream_witness :
    (wmain { exampleRun with callbacks := exampleCallbacks }).2.calls
        = [ProducerCall.OpenFolder "ctf" true, ProducerCall.OpenStream "stream" true,
            ProducerCall.Write [0xC1, 0x1F, 0xFC, 0xC1] 4 true, ProducerCall.CloseStream true]
          ++ ProducerCall.OpenStream "buffer0" true
            :: [ProducerCall.Write [0xC1] 1 true, ProducerCall.Write [0x02, 0x03] 2 true,
                ProducerCall.CloseStream true, ProducerCall.OpenStream "metadata" true,
                ProducerCall.Write [0x2F, 0x2A] 2 true, ProducerCall.CloseStream true]
      ∧ (CTFProducer.new.runCalls
          [ProducerCall.OpenFolder "ctf" true, ProducerCall.OpenStream "stream" true,
            ProducerCall.Write [0xC1, 0x1F, 0xFC, 0xC1] 4 true,
            ProducerCall.CloseStream true]).stream_.is_open = false :=
  ⟨by decide,
    (C25_open_stream_precondition_holds { exampleRun with callbacks := exampleCallbacks }).1
      [ProducerCall.OpenFolder "ctf" true, ProducerCall.OpenStream "stream" true,
        ProducerCall.Write [0xC1, 0x1F, 0xFC, 0xC1] 4 true, ProducerCall.CloseStream true]
      "buffer0" true
      [ProducerCall.Write [0xC1] 1 true, ProducerCall.Write [0x02, 0x03] 2 true,
        ProducerCall.CloseStream true, ProducerCall.OpenStream "metadata" true,
        ProducerCall.Write [0x2F, 0x2A] 2 true, ProducerCall.CloseStream true]
      (by decide)⟩

/-- C26: when `consumer.Empty()` holds, `wmain` returns 0 after the one call
`OpenFolder("ctf")`: no stream is open, and the system was asked for the
directory only, no file was opened or written. -/
theorem C26_no_trace_file_no_output (run : Run) (hempty : run.empty = true) :
    (wmain run).1 = 0
      ∧ (wmain run).2.calls = [ProducerCall.OpenFolder "ctf" run.createOk]
      ∧ (wmain run).2.producer.os = [OsCall.CreateDirectory "ctf" run.createOk]
      ∧ (wmain run).2.producer.stream_.is_open = false
      ∧ (wmain run).2.producer.folder_ = "ctf" := by
  cases hcreate : run.createOk <;>
    simp [wmain, hempty, hcreate, Driver.OpenFolder, Driver.start, CTFProducer.OpenFolder,
      CTFProducer.new, OfStream.is_open]

/-- C26 on a run without trace file: exit code 0 and the directory `ctf` as
the only call to the system. -/
theorem C26_no_trace_file_witness :
    ({ exampleRun with empty := true } : Run).empty = true
      ∧ (wmain { exampleRun with empty := true }).1 = 0
      ∧ (wmain { exampleRun with empty := true }).2.producer.os
          = [OsCall.CreateDirectory "ctf" true] :=
  ⟨rfl, (C26_no_trace_file_no_output { exampleRun with empty := true } rfl).1, by decide⟩

end etw2ctf
